import Mathlib

/-!
Verification of the Smart-Ptrs repository: a non-atomic reference-counted
smart-pointer system (SharedPtr / WeakPtr / EnableSharedFromThis).

The development shallowly embeds the C++ sources:
  * src/shared-from-this/shared.h : ControlBlockBase, DefaultBlock, InlineBlock,
    SharedPtr (with weak counts and EnableSharedFromThis support)
  * src/shared-from-this/weak.h   : WeakPtr with the is_esft_ptr_ flag
  * src/shared/shared.h           : the earlier single-counter variant
  * src/weak/weak.h               : the strong+weak variant without ESFT

Counters are C++ size_t values; they are modelled as Nat.  Every decrement in
the sources is executed only while the counter is positive (a handle holding a
reference owns one unit of the corresponding counter), so truncated
subtraction agrees with the machine arithmetic on all states the proofs talk
about; theorems about stand-alone decrement functions carry an explicit
positivity hypothesis.

Heap effects (`delete deletem_ptr`, `delete control_block_`, placement
destructor calls) are modelled with ghost fields: `destructorRuns` counts how
often the managed object's destructor has been executed, `blockFreed` records
that the control block's own memory was released, and `uafError` records that
the code dereferenced a control-block pointer that is null / already freed
(undefined behavior in C++).
-/

/-- ControlBlockBase from src/shared-from-this/shared.h lines 7-52:
strong counter, weak counter and the destruction flag. -/
structure ControlBlockBase where
  strong_ref_cnt : Nat
  weak_ref_cnt : Nat
  is_destroyed : Bool
deriving DecidableEq

/-- size_t IncStrongRef() { return ++strong_ref_cnt; } (state part). -/
def ControlBlockBase.IncStrongRef (b : ControlBlockBase) : ControlBlockBase :=
  { b with strong_ref_cnt := b.strong_ref_cnt + 1 }

/-- size_t DecStrongRef() { return --strong_ref_cnt; } (state part). -/
def ControlBlockBase.DecStrongRef (b : ControlBlockBase) : ControlBlockBase :=
  { b with strong_ref_cnt := b.strong_ref_cnt - 1 }

/-- size_t GetStrongCounter() const. -/
def ControlBlockBase.GetStrongCounter (b : ControlBlockBase) : Nat :=
  b.strong_ref_cnt

/-- size_t IncWeakRef() (state part). -/
def ControlBlockBase.IncWeakRef (b : ControlBlockBase) : ControlBlockBase :=
  { b with weak_ref_cnt := b.weak_ref_cnt + 1 }

/-- size_t DecWeakRef() (state part). -/
def ControlBlockBase.DecWeakRef (b : ControlBlockBase) : ControlBlockBase :=
  { b with weak_ref_cnt := b.weak_ref_cnt - 1 }

/-- size_t GetWeakCounter() const. -/
def ControlBlockBase.GetWeakCounter (b : ControlBlockBase) : Nat :=
  b.weak_ref_cnt

/-- size_t GetAllCounter() const { return strong_ref_cnt + weak_ref_cnt; } -/
def ControlBlockBase.GetAllCounter (b : ControlBlockBase) : Nat :=
  b.strong_ref_cnt + b.weak_ref_cnt

/-- bool IsDestroyed() const. -/
def ControlBlockBase.IsDestroyed (b : ControlBlockBase) : Bool :=
  b.is_destroyed

/-- bool CanDeleteControlBlock() const { return GetAllCounter() == 0; } -/
def ControlBlockBase.CanDeleteControlBlock (b : ControlBlockBase) : Bool :=
  b.GetAllCounter == 0

/-- DefaultBlock from src/shared-from-this/shared.h lines 54-75.
`deletem_null` models `deletem_ptr == nullptr`; `destructorRuns` is a ghost
counter of how many times `delete deletem_ptr` has been executed. -/
structure DefaultBlock where
  base : ControlBlockBase
  deletem_null : Bool
  destructorRuns : Nat
deriving DecidableEq

/-- DefaultBlock::Destroy (src/shared-from-this/shared.h lines 61-70):
guarded by is_destroyed; zeroes the strong count, sets the flag, and deletes
the managed pointer when it is non-null. -/
def DefaultBlock.Destroy (s : DefaultBlock) : DefaultBlock :=
  if s.base.is_destroyed then s
  else
    { base := { s.base with strong_ref_cnt := 0, is_destroyed := true },
      deletem_null := s.deletem_null,
      destructorRuns := s.destructorRuns + (if s.deletem_null then 0 else 1) }

/-- InlineBlock from src/shared-from-this/shared.h lines 77-97 (object storage
embedded in the block); Destroy runs the placement destructor once, guarded by
is_destroyed. -/
structure InlineBlock where
  base : ControlBlockBase
  destructorRuns : Nat
deriving DecidableEq

/-- InlineBlock::Destroy (src/shared-from-this/shared.h lines 86-92). -/
def InlineBlock.Destroy (s : InlineBlock) : InlineBlock :=
  if s.base.is_destroyed then s
  else
    { base := { s.base with strong_ref_cnt := 0, is_destroyed := true },
      destructorRuns := s.destructorRuns + 1 }

namespace SharedVariant

/-- DefaultBlock of the single-counter variant, src/shared/shared.h lines
28-45: only a combined `counter` (initialised to 1), no destruction flag. -/
structure DefaultBlock where
  counter : Nat
  deletem_null : Bool
  destructorRuns : Nat
deriving DecidableEq

/-- src/shared/shared.h lines 35-40:
void Destroy() override { if (deletem_ptr) { delete deletem_ptr; } counter = 0; }
Note: no is_destroyed guard exists in this variant. -/
def DefaultBlock.Destroy (s : DefaultBlock) : DefaultBlock :=
  { s with
    destructorRuns := s.destructorRuns + (if s.deletem_null then 0 else 1),
    counter := 0 }

/-- InlineBlock of the single-counter variant, src/shared/shared.h lines
47-62: the object is a direct member, so Destroy only zeroes the counter (the
member's destructor runs when the block itself is deleted). -/
structure InlineBlock where
  counter : Nat
  destructorRuns : Nat
deriving DecidableEq

/-- src/shared/shared.h lines 55-57: void Destroy() override { counter = 0; } -/
def InlineBlock.Destroy (s : InlineBlock) : InlineBlock :=
  { s with counter := 0 }

end SharedVariant

/-- Outcome of the promoting constructor SharedPtr(const WeakPtr&). -/
inductive PromoteOutcome where
  | ok
  | badWeakRef
  | nullDeref
deriving DecidableEq

/-- Result of promotion: the outcome, the control block's state afterwards,
and whether the produced handle references the block. -/
structure PromoteResult where
  outcome : PromoteOutcome
  blk : Option ControlBlockBase
  attached : Bool
deriving DecidableEq

/-- SharedPtr(const WeakPtr<T>&), src/shared-from-this/shared.h lines 167-173:
copies the weak handle's control-block pointer, then evaluates
control_block_->IsDestroyed().  When the weak handle's block pointer is null
this dereferences a null pointer (undefined behavior, PromoteOutcome.nullDeref);
when the block is destroyed it throws BadWeakPtr without touching any counter;
otherwise it increments the strong count. -/
def SharedPtr.fromWeakPtr (blk : Option ControlBlockBase) : PromoteResult :=
  match blk with
  | none => ⟨PromoteOutcome.nullDeref, none, false⟩
  | some b =>
    if b.IsDestroyed then ⟨PromoteOutcome.badWeakRef, some b, false⟩
    else ⟨PromoteOutcome.ok, some b.IncStrongRef, true⟩

/-- EnableSharedFromThis::SharedFromThis, src/shared-from-this/shared.h lines
302-307: returns SharedPtr<T>(weak_this_); the argument is the control-block
state referenced by the stored weak_this_ handle (none when weak_this_ was
never initialised, i.e. the object was never wrapped by a SharedPtr). -/
def EnableSharedFromThis.SharedFromThis (weakThisBlk : Option ControlBlockBase) :
    PromoteResult :=
  SharedPtr.fromWeakPtr weakThisBlk

/-- Field state of a WeakPtr handle from src/shared-from-this/weak.h:
whether control_block_ is non-null, whether ptr_ is null, and the
is_esft_ptr_ flag (lines 112-114, default false). -/
structure WeakPtrState where
  hasBlock : Bool
  ptr_null : Bool
  is_esft_ptr : Bool
deriving DecidableEq

/-- WeakPtr copy constructor (src/shared-from-this/weak.h lines 22-24): copies
control_block_ and ptr_; is_esft_ptr_ keeps its default false. -/
def WeakPtrState.copyCon (o : WeakPtrState) : WeakPtrState :=
  ⟨o.hasBlock, o.ptr_null, false⟩

/-- The new handle produced by the WeakPtr move constructor
(src/shared-from-this/weak.h lines 26-29): copies control_block_ and ptr_
(the source is then Reset); is_esft_ptr_ keeps its default false. -/
def WeakPtrState.moveCon (o : WeakPtrState) : WeakPtrState :=
  ⟨o.hasBlock, o.ptr_null, false⟩

/-- WeakPtr copy assignment (src/shared-from-this/weak.h lines 51-59): the
target resets, copies control_block_ and ptr_ from the source and increments;
is_esft_ptr_ of the target is never written, so it keeps its old value. -/
def WeakPtrState.copyAssign (tgt src : WeakPtrState) : WeakPtrState :=
  ⟨src.hasBlock, src.ptr_null, tgt.is_esft_ptr⟩

/-- WeakPtr move assignment (src/shared-from-this/weak.h lines 61-67): Reset
then Swap; Swap (lines 85-88) exchanges only control_block_ and ptr_, so the
target keeps its own is_esft_ptr_ flag. -/
def WeakPtrState.moveAssign (tgt src : WeakPtrState) : WeakPtrState :=
  ⟨src.hasBlock, src.ptr_null, tgt.is_esft_ptr⟩

/-- WeakPtr::MakeEsftPtr (src/shared-from-this/weak.h lines 138-140). -/
def WeakPtrState.MakeEsftPtr (s : WeakPtrState) : WeakPtrState :=
  { s with is_esft_ptr := true }

/-- WeakPtr(const SharedPtr<T>&) (src/shared-from-this/weak.h lines 44-46):
adopts the shared handle's block and pointer; is_esft_ptr_ stays false. -/
def WeakPtrState.fromShared (hasBlock ptrNull : Bool) : WeakPtrState :=
  ⟨hasBlock, ptrNull, false⟩

/-- SharedPtr::InitWeakThis (src/shared-from-this/shared.h lines 248-252):
  esft_block->weak_this_ = WeakPtr<Y>(*this); esft_block->weak_this_.MakeEsftPtr();
Takes the previous weak_this_ state and the wrapping handle's field state. -/
def SharedPtr.InitWeakThis (weakThis : WeakPtrState) (hasBlock ptrNull : Bool) :
    WeakPtrState :=
  (weakThis.copyAssign (WeakPtrState.fromShared hasBlock ptrNull)).MakeEsftPtr

/-- EnableSharedFromThis::WeakFromThis (src/shared-from-this/shared.h lines
309-314): returns WeakPtr<T>(weak_this_), a copy of the stored handle. -/
def EnableSharedFromThis.WeakFromThis (weakThis : WeakPtrState) : WeakPtrState :=
  weakThis.copyCon

/-- WeakPtr::DecreaseWeakCounter (src/shared-from-this/weak.h lines 122-129)
on a handle whose control_block_ is non-null and references block `b`:
decrements the weak count and frees the block exactly when the handle is not
flagged as an ESFT back-reference and the combined count reached zero.
Returns the block state and whether `delete control_block_` ran. -/
def WeakPtr.DecreaseWeakCounter (isEsft : Bool) (b : ControlBlockBase) :
    ControlBlockBase × Bool :=
  let b1 := b.DecWeakRef
  (b1, !isEsft && b1.CanDeleteControlBlock)

namespace WeakVariant

/-- WeakPtr::DecreaseWeakCounter of the src/weak variant (src/weak/weak.h
lines 114-121) on a handle whose control_block_ is non-null: decrements the
weak count and deletes the block exactly when GetAllCounter() == 0 (this
variant has no ESFT flag). -/
def DecreaseWeakCounter (b : ControlBlockBase) : ControlBlockBase × Bool :=
  let b1 := b.DecWeakRef
  (b1, b1.GetAllCounter == 0)

/-- Result of WeakPtr::Lock in the src/weak variant: block state afterwards
and whether the returned SharedPtr references the block. -/
structure LockResult where
  blk : Option ControlBlockBase
  attached : Bool
deriving DecidableEq

/-- Modelled from the spec: the SharedPtr(ControlBlockBase*, T*) constructor
used by src/weak/weak.h's Lock lives in src/weak's shared.h, which is not in
the repository snapshot.  Per the spec, Lock itself performs the single
strong-count increment, so the adopting constructor only stores the block and
pointer without touching any counter. -/
def SharedPtrFromBlock (blk : Option ControlBlockBase) : LockResult :=
  ⟨blk, true⟩

/-- WeakPtr::Lock of the src/weak variant (src/weak/weak.h lines 97-103) on a
handle whose fields are `blk` (none when control_block_ is null): if not
expired, increments the strong count and returns a handle adopting the block;
otherwise returns a default-constructed (null) SharedPtr. -/
def Lock (blk : Option ControlBlockBase) : LockResult :=
  match blk with
  | none => ⟨none, false⟩
  | some b =>
    if b.IsDestroyed then ⟨some b, false⟩
    else SharedPtrFromBlock (some b.IncStrongRef)

end WeakVariant

/-!
A world machine for src/shared-from-this: one control block (the claims are
about handle sets sharing one block) plus the lists of SharedPtr and WeakPtr
handles that client code has created.  Each public operation of shared.h /
weak.h is one step.  The managed type is a plain (non-EnableSharedFromThis)
type, so the `if constexpr` ESFT branches of the constructors are not taken.
Dead handles stay in the lists with live := false so indices are stable.
-/

/-- Field state of one SharedPtr handle: alive (not yet destructed), whether
control_block_ is non-null (it then references the world's block), and
whether ptr_ is null. -/
structure StrongHandle where
  live : Bool
  attached : Bool
  ptr_null : Bool
deriving DecidableEq

/-- Field state of one WeakPtr handle, including the is_esft_ptr_ flag. -/
structure WeakHandle where
  live : Bool
  attached : Bool
  ptr_null : Bool
  is_esft_ptr : Bool
deriving DecidableEq

/-- The machine state: the control block (none = not yet allocated, or already
freed), ghost flags for heap events, and the handle lists. -/
structure World where
  cb : Option ControlBlockBase
  blockFreed : Bool
  deletem_null : Bool
  destructorRuns : Nat
  uafError : Bool
  strongs : List StrongHandle
  weaks : List WeakHandle
deriving DecidableEq

/-- Apply a control-block member function through a non-null handle pointer;
if the block is absent the access is a use-after-free (ghost flag). -/
def World.touchBlock (w : World) (f : ControlBlockBase → ControlBlockBase) : World :=
  match w.cb with
  | some b => { w with cb := some (f b) }
  | none => { w with uafError := true }

/-- SharedPtr::IncreaseStrongCounter (src/shared-from-this/shared.h lines
254-258): if (control_block_) control_block_->IncStrongRef(). -/
def World.IncreaseStrongCounter (w : World) (hasBlock : Bool) : World :=
  if hasBlock then w.touchBlock ControlBlockBase.IncStrongRef else w

/-- WeakPtr::IncreaseWeakCounter (src/shared-from-this/weak.h lines 116-120). -/
def World.IncreaseWeakCounter (w : World) (hasBlock : Bool) : World :=
  if hasBlock then w.touchBlock ControlBlockBase.IncWeakRef else w

/-- control_block_->Destroy() for the world's DefaultBlock (src/shared-from-
this/shared.h lines 61-70), tracking destructor executions in the ghost. -/
def World.destroyManaged (w : World) : World :=
  match w.cb with
  | none => { w with uafError := true }
  | some b =>
    if b.is_destroyed then w
    else
      { w with
        cb := some { b with strong_ref_cnt := 0, is_destroyed := true },
        destructorRuns := w.destructorRuns + (if w.deletem_null then 0 else 1) }

/-- delete control_block_ . -/
def World.freeBlock (w : World) : World :=
  match w.cb with
  | some _ => { w with cb := none, blockFreed := true }
  | none => { w with uafError := true }

/-- SharedPtr::DecreaseStrongCounter (src/shared-from-this/shared.h lines
260-270): if non-null, decrement; when the strong count reaches zero, Destroy
the managed object, then delete the block if CanDeleteControlBlock(). -/
def World.DecreaseStrongCounter (w : World) (hasBlock : Bool) : World :=
  if hasBlock then
    match w.cb with
    | none => { w with uafError := true }
    | some b =>
      let b1 := b.DecStrongRef
      let w1 := { w with cb := some b1 }
      if b1.GetStrongCounter = 0 then
        let w2 := w1.destroyManaged
        match w2.cb with
        | none => { w2 with uafError := true }
        | some b2 => if b2.CanDeleteControlBlock then w2.freeBlock else w2
      else w1
  else w

/-- WeakPtr::DecreaseWeakCounter (src/shared-from-this/weak.h lines 122-129)
executed against the world's block. -/
def World.DecWeakWorld (w : World) (hasBlock isEsft : Bool) : World :=
  if hasBlock then
    match w.cb with
    | none => { w with uafError := true }
    | some b =>
      let b1 := b.DecWeakRef
      let w1 := { w with cb := some b1 }
      if !isEsft && b1.CanDeleteControlBlock then w1.freeBlock else w1
  else w

/-- A default-constructed / nulled-out SharedPtr handle. -/
def nullStrongHandle : StrongHandle := ⟨true, false, true⟩

/-- A default-constructed / nulled-out WeakPtr handle with flag `f`. -/
def nullWeakHandle (f : Bool) : WeakHandle := ⟨true, false, true, f⟩

/-- One public API operation; indices name handles in the lists. -/
inductive Op where
  | newDefault
  | newFromRaw (ptrNull : Bool)
  | copyCon (i : Nat)
  | moveCon (i : Nat)
  | copyAssign (i j : Nat)
  | moveAssign (i j : Nat)
  | resetS (i : Nat)
  | destructS (i : Nat)
  | swapS (i j : Nat)
  | aliasCon (i : Nat) (ptrNull : Bool)
  | weakNewDefault
  | weakFromShared (i : Nat)
  | weakCopyCon (i : Nat)
  | weakMoveCon (i : Nat)
  | weakCopyAssign (i j : Nat)
  | weakMoveAssign (i j : Nat)
  | resetW (i : Nat)
  | destructW (i : Nat)
  | lockW (i : Nat)
deriving DecidableEq

/-- One step of the machine; an operation naming a dead or absent handle is a
skip (client code can only apply operations to objects that exist). -/
def World.step (w : World) : Op → World
  | Op.newDefault =>
    { w with strongs := w.strongs ++ [nullStrongHandle] }
  | Op.newFromRaw pnull =>
    if w.cb.isNone && !w.blockFreed then
      let w1 := { w with cb := some ⟨0, 0, false⟩, deletem_null := pnull }
      let w2 := w1.IncreaseStrongCounter true
      { w2 with strongs := w2.strongs ++ [⟨true, true, pnull⟩] }
    else w
  | Op.copyCon i =>
    match w.strongs[i]? with
    | some h =>
      if h.live then
        let w1 := w.IncreaseStrongCounter h.attached
        { w1 with strongs := w1.strongs ++ [⟨true, h.attached, h.ptr_null⟩] }
      else w
    | none => w
  | Op.moveCon i =>
    match w.strongs[i]? with
    | some h =>
      if h.live then
        { w with strongs :=
            (w.strongs.set i nullStrongHandle) ++ [⟨true, h.attached, h.ptr_null⟩] }
      else w
    | none => w
  | Op.copyAssign i j =>
    if i = j then w
    else
      match w.strongs[i]?, w.strongs[j]? with
      | some hi, some hj =>
        if hi.live && hj.live then
          let w1 := w.DecreaseStrongCounter hi.attached
          let w2 := w1.IncreaseStrongCounter hj.attached
          { w2 with strongs := w2.strongs.set i ⟨true, hj.attached, hj.ptr_null⟩ }
        else w
      | _, _ => w
  | Op.moveAssign i j =>
    if i = j then w
    else
      match w.strongs[i]?, w.strongs[j]? with
      | some hi, some hj =>
        if hi.live && hj.live then
          let w1 := w.DecreaseStrongCounter hi.attached
          { w1 with strongs :=
              (w1.strongs.set i ⟨true, hj.attached, hj.ptr_null⟩).set j nullStrongHandle }
        else w
      | _, _ => w
  | Op.resetS i =>
    match w.strongs[i]? with
    | some h =>
      if h.live then
        let w1 := w.DecreaseStrongCounter h.attached
        { w1 with strongs := w1.strongs.set i nullStrongHandle }
      else w
    | none => w
  | Op.destructS i =>
    match w.strongs[i]? with
    | some h =>
      if h.live then
        let w1 := w.DecreaseStrongCounter h.attached
        { w1 with strongs := w1.strongs.set i ⟨false, false, true⟩ }
      else w
    | none => w
  | Op.swapS i j =>
    match w.strongs[i]?, w.strongs[j]? with
    | some hi, some hj =>
      if hi.live && hj.live then
        let l1 := w.strongs.set i ⟨true, hj.attached, hj.ptr_null⟩
        { w with strongs := l1.set j ⟨true, hi.attached, hi.ptr_null⟩ }
      else w
    | _, _ => w
  | Op.aliasCon i pnull =>
    match w.strongs[i]? with
    | some h =>
      if h.live then
        let w1 := w.IncreaseStrongCounter h.attached
        { w1 with strongs := w1.strongs ++ [⟨true, h.attached, pnull⟩] }
      else w
    | none => w
  | Op.weakNewDefault =>
    { w with weaks := w.weaks ++ [nullWeakHandle false] }
  | Op.weakFromShared i =>
    match w.strongs[i]? with
    | some h =>
      if h.live then
        let w1 := w.IncreaseWeakCounter h.attached
        { w1 with weaks := w1.weaks ++ [⟨true, h.attached, h.ptr_null, false⟩] }
      else w
    | none => w
  | Op.weakCopyCon i =>
    match w.weaks[i]? with
    | some h =>
      if h.live then
        let w1 := w.IncreaseWeakCounter h.attached
        { w1 with weaks := w1.weaks ++ [⟨true, h.attached, h.ptr_null, false⟩] }
      else w
    | none => w
  | Op.weakMoveCon i =>
    match w.weaks[i]? with
    | some h =>
      if h.live then
        let w1 := w.IncreaseWeakCounter h.attached
        let w2 := w1.DecWeakWorld h.attached h.is_esft_ptr
        { w2 with weaks :=
            (w2.weaks.set i (nullWeakHandle h.is_esft_ptr)) ++
              [⟨true, h.attached, h.ptr_null, false⟩] }
      else w
    | none => w
  | Op.weakCopyAssign i j =>
    if i = j then w
    else
      match w.weaks[i]?, w.weaks[j]? with
      | some hi, some hj =>
        if hi.live && hj.live then
          let w1 := w.DecWeakWorld hi.attached hi.is_esft_ptr
          let w2 := w1.IncreaseWeakCounter hj.attached
          { w2 with weaks :=
              w2.weaks.set i ⟨true, hj.attached, hj.ptr_null, hi.is_esft_ptr⟩ }
        else w
      | _, _ => w
  | Op.weakMoveAssign i j =>
    if i = j then w
    else
      match w.weaks[i]?, w.weaks[j]? with
      | some hi, some hj =>
        if hi.live && hj.live then
          let w1 := w.DecWeakWorld hi.attached hi.is_esft_ptr
          let l1 := w1.weaks.set i ⟨true, hj.attached, hj.ptr_null, hi.is_esft_ptr⟩
          { w1 with weaks := l1.set j (nullWeakHandle hj.is_esft_ptr) }
        else w
      | _, _ => w
  | Op.resetW i =>
    match w.weaks[i]? with
    | some h =>
      if h.live then
        let w1 := w.DecWeakWorld h.attached h.is_esft_ptr
        { w1 with weaks := w1.weaks.set i (nullWeakHandle h.is_esft_ptr) }
      else w
    | none => w
  | Op.destructW i =>
    match w.weaks[i]? with
    | some h =>
      if h.live then
        let w1 := w.DecWeakWorld h.attached h.is_esft_ptr
        { w1 with weaks := w1.weaks.set i ⟨false, false, true, h.is_esft_ptr⟩ }
      else w
    | none => w
  | Op.lockW i =>
    match w.weaks[i]? with
    | some h =>
      if h.live then
        if h.attached then
          match w.cb with
          | none => { w with uafError := true }
          | some b =>
            if b.IsDestroyed then
              { w with strongs := w.strongs ++ [nullStrongHandle] }
            else
              let w1 := w.IncreaseStrongCounter true
              { w1 with strongs := w1.strongs ++ [⟨true, true, h.ptr_null⟩] }
        else { w with strongs := w.strongs ++ [nullStrongHandle] }
      else w
    | none => w

/-- The empty initial world: no block, no handles. -/
def World.initWorld : World :=
  ⟨none, false, true, 0, false, [], []⟩

/-- States reachable through the public API from the empty world. -/
inductive Reachable : World → Prop where
  | init : Reachable World.initWorld
  | step : ∀ (w : World) (op : Op), Reachable w → Reachable (w.step op)

/-- Number of live SharedPtr handles currently referencing the block. -/
def liveStrongCount (w : World) : Nat :=
  w.strongs.countP (fun h => h.live && h.attached)

/-- Number of live WeakPtr handles currently referencing the block. -/
def liveWeakCount (w : World) : Nat :=
  w.weaks.countP (fun h => h.live && h.attached)

/-- SharedPtr::UseCount (src/shared-from-this/shared.h lines 236-238, via
GetStrongCounter lines 272-277) observed on handle `i`.  A live handle's
non-null control_block_ targets the world's block; the invariant below shows
the block is present whenever some live handle is attached, so the `none`
branch (a use-after-free read in C++) is never taken on reachable states. -/
def World.useCountS (w : World) (i : Nat) : Nat :=
  match w.strongs[i]? with
  | some h =>
    if h.attached then
      match w.cb with
      | some b => b.GetStrongCounter
      | none => 0
    else 0
  | none => 0

/-- WeakPtr::UseCount (src/shared-from-this/weak.h lines 93-98). -/
def World.useCountW (w : World) (i : Nat) : Nat :=
  match w.weaks[i]? with
  | some h =>
    if h.attached then
      match w.cb with
      | some b => b.GetStrongCounter
      | none => 0
    else 0
  | none => 0

/-- SharedPtr::operator bool (src/shared-from-this/shared.h lines 240-242):
ptr_ != nullptr. -/
def World.boolConv (w : World) (i : Nat) : Bool :=
  match w.strongs[i]? with
  | some h => !h.ptr_null
  | none => false

/-- WeakPtr::Expired (src/shared-from-this/weak.h lines 100-102) observed on
weak handle `i`. -/
def World.expiredW (w : World) (i : Nat) : Bool :=
  match w.weaks[i]? with
  | some h =>
    if h.attached then
      match w.cb with
      | some b => b.IsDestroyed
      | none => true
    else true
  | none => true

/-- The machine invariant: no undefined behavior has occurred, the block's
counters agree with the numbers of live attached handles, a block whose
strong count is zero has run Destroy (and conversely a destroyed block's
strong count is zero, clamped by Destroy), the managed object's destructor
has run exactly as often as the destruction flag says, the block memory is
freed only after the object was destroyed, and no reachable WeakPtr carries
the internal is_esft_ptr_ flag (the managed type here is not an
EnableSharedFromThis type). -/
structure WorldInv (w : World) : Prop where
  uaf : w.uafError = false
  strongAgrees : ∀ b, w.cb = some b → b.strong_ref_cnt = liveStrongCount w
  weakAgrees : ∀ b, w.cb = some b → b.weak_ref_cnt = liveWeakCount w
  zeroDestroyed : ∀ b, w.cb = some b → b.strong_ref_cnt = 0 →
    b.is_destroyed = true
  destroyedZero : ∀ b, w.cb = some b → b.is_destroyed = true →
    b.strong_ref_cnt = 0
  aliveRuns : ∀ b, w.cb = some b → b.is_destroyed = false →
    w.destructorRuns = 0
  destroyedRuns : ∀ b, w.cb = some b → b.is_destroyed = true →
    w.destructorRuns = (if w.deletem_null then 0 else 1)
  cbNoneStrong : w.cb = none → liveStrongCount w = 0
  cbNoneWeak : w.cb = none → liveWeakCount w = 0
  freedNone : w.blockFreed = true → w.cb = none
  notFreedRuns : w.blockFreed = false → w.cb = none → w.destructorRuns = 0
  freedRuns : w.blockFreed = true →
    w.destructorRuns = (if w.deletem_null then 0 else 1)
  weakFlags : ∀ h ∈ w.weaks, h.is_esft_ptr = false

/-- Replace both handle lists of a world (used to state the preservation
lemmas uniformly). -/
def World.withLists (w : World) (L : List StrongHandle) (M : List WeakHandle) :
    World :=
  { w with strongs := L, weaks := M }

/-- Well-formedness of an operation's pointer arguments: raw-pointer adoption
adopts a non-null pointer, and the aliasing constructor is given a pointer
that is null exactly when the source handle's control block is null.  This is
the side condition under which the amended C8 invariant holds. -/
def WFOp (w : World) : Op → Prop
  | Op.newFromRaw p => p = false
  | Op.aliasCon i p =>
    match w.strongs[i]? with
    | some h => p = !h.attached
    | none => True
  | _ => True

/-- States reachable through the public API using only well-formed pointer
arguments. -/
inductive ReachableWF : World → Prop where
  | init : ReachableWF World.initWorld
  | step : ∀ (w : World) (op : Op), ReachableWF w → WFOp w op →
      ReachableWF (w.step op)

/-- The pointer-nullness invariant of claim C8: every live handle's stored
value pointer is null exactly when its control-block reference is null. -/
structure PtrInv (w : World) : Prop where
  strongPtr : ∀ h ∈ w.strongs, h.live = true → h.ptr_null = !h.attached
  weakPtr : ∀ h ∈ w.weaks, h.live = true → h.ptr_null = !h.attached

/-- Demo world: one SharedPtr adopting a non-null raw pointer. -/
def demoAdopt : World := World.initWorld.step (Op.newFromRaw false)

/-- Demo world: the adopting handle plus a copy (two live strong handles). -/
def demoTwo : World := demoAdopt.step (Op.copyCon 0)

/-- Demo world: one SharedPtr adopting a null raw pointer,
SharedPtr((T*)nullptr). -/
def demoNullAdopt : World := World.initWorld.step (Op.newFromRaw true)

/-- Demo world: a single default-constructed SharedPtr. -/
def demoDefault : World := World.initWorld.step Op.newDefault

/-- Demo world: an adopting SharedPtr plus a WeakPtr observing it. -/
def demoWeak : World := demoAdopt.step (Op.weakFromShared 0)

/-- Demo world: strong handle reset while the weak handle persists (the
managed object is destroyed, the block survives on the weak count). -/
def demoExpired : World := demoWeak.step (Op.resetS 0)

/-- Demo world: the aliasing constructor applied to a default-constructed
(empty) SharedPtr with a non-null pointer, SharedPtr<T>(empty, &x): the
resulting handle stores a non-null value pointer over a null control
block. -/
def demoAliasFromEmpty : World := demoDefault.step (Op.aliasCon 0 false)

/-- What claim C2 asserts of one WeakPtr release (destructor or Reset) on
weak handle `i` of world `w` whose block is `b`: the weak count is
decremented (strong count untouched), and the block memory is freed exactly
when the combined strong+weak count has reached zero and the managed object
has already been destroyed; in particular it is never freed while the object
is undestroyed. -/
def C2Concl (w : World) (i : Nat) (b : ControlBlockBase) : Prop :=
  (∀ b', (w.step (Op.resetW i)).cb = some b' →
      b'.weak_ref_cnt = b.weak_ref_cnt - 1 ∧
      b'.strong_ref_cnt = b.strong_ref_cnt) ∧
  ((w.step (Op.resetW i)).blockFreed = true ↔
    b.strong_ref_cnt + (b.weak_ref_cnt - 1) = 0 ∧ b.is_destroyed = true) ∧
  (b.is_destroyed = false → (w.step (Op.resetW i)).blockFreed = false) ∧
  (∀ b', (w.step (Op.destructW i)).cb = some b' →
      b'.weak_ref_cnt = b.weak_ref_cnt - 1 ∧
      b'.strong_ref_cnt = b.strong_ref_cnt) ∧
  ((w.step (Op.destructW i)).blockFreed = true ↔
    b.strong_ref_cnt + (b.weak_ref_cnt - 1) = 0 ∧ b.is_destroyed = true) ∧
  (b.is_destroyed = false → (w.step (Op.destructW i)).blockFreed = false)

/-- Claim C2 for the src/weak variant's DecreaseWeakCounter, on a handle with
a non-null block: the hypothesis `strong = 0 → destroyed` is the reachability
invariant of that variant (Destroy runs exactly when the strong count hits
zero); under it the deletion condition GetAllCounter() == 0 coincides with
"combined count zero and object destroyed". -/
def C2Variant : Prop :=
  ∀ b : ControlBlockBase, 1 ≤ b.weak_ref_cnt →
    (b.strong_ref_cnt = 0 → b.is_destroyed = true) →
    (WeakVariant.DecreaseWeakCounter b).1.weak_ref_cnt = b.weak_ref_cnt - 1 ∧
    (WeakVariant.DecreaseWeakCounter b).1.strong_ref_cnt = b.strong_ref_cnt ∧
    ((WeakVariant.DecreaseWeakCounter b).2 = true ↔
      b.strong_ref_cnt + (b.weak_ref_cnt - 1) = 0 ∧ b.is_destroyed = true)

/-- What claim C4 asserts of Lock() on weak handle `i` (field state `h`) of
world `w`: if the handle observes a live object, the result shares the same
control block with the strong count incremented by exactly one; if expired
(null block or destroyed object), a null SharedPtr is returned and nothing
changes. -/
def C4Concl (w : World) (i : Nat) (h : WeakHandle) : Prop :=
  (h.attached = true → ∀ b, w.cb = some b →
    (b.is_destroyed = false →
      w.step (Op.lockW i) =
        { w with
          cb := some b.IncStrongRef,
          strongs := w.strongs ++ [⟨true, true, h.ptr_null⟩] } ∧
      b.IncStrongRef.strong_ref_cnt = b.strong_ref_cnt + 1 ∧
      b.IncStrongRef.weak_ref_cnt = b.weak_ref_cnt) ∧
    (b.is_destroyed = true →
      w.step (Op.lockW i) =
        { w with strongs := w.strongs ++ [nullStrongHandle] })) ∧
  (h.attached = false →
    w.step (Op.lockW i) = { w with strongs := w.strongs ++ [nullStrongHandle] })

/-- Claim C4 for the src/weak variant's Lock (src/weak/weak.h lines 97-103):
alive gives a handle adopting the block with strong count +1, expired gives a
null handle with the block untouched. -/
def C4Variant : Prop :=
  (∀ b : ControlBlockBase, b.is_destroyed = false →
    WeakVariant.Lock (some b) = ⟨some b.IncStrongRef, true⟩ ∧
    b.IncStrongRef.strong_ref_cnt = b.strong_ref_cnt + 1) ∧
  (∀ b : ControlBlockBase, b.is_destroyed = true →
    WeakVariant.Lock (some b) = ⟨some b, false⟩) ∧
  WeakVariant.Lock none = ⟨none, false⟩

theorem countP_append_one {α : Type} (l : List α) (p : α → Bool) (a : α) :
    (l ++ [a]).countP p = l.countP p + (if p a then 1 else 0) := by
  simp [List.countP_append, List.countP_cons]

theorem countP_set_one {α : Type} (l : List α) (i : Nat) (a : α) (p : α → Bool)
    (hlt : i < l.length) :
    (l.set i a).countP p + (if p l[i] then 1 else 0) =
      l.countP p + (if p a then 1 else 0) := by
  induction l generalizing i with
  | nil => simp at hlt
  | cons x xs ih =>
    cases i with
    | zero => simp [List.countP_cons]; omega
    | succ n =>
      simp only [List.set, List.countP_cons]
      have := ih n (by simpa using hlt)
      simp at this ⊢
      omega

theorem mem_of_getElem?_eq {α : Type} {l : List α} {i : Nat} {a : α}
    (h : l[i]? = some a) : a ∈ l := by
  obtain ⟨hlt, rfl⟩ := List.getElem?_eq_some.mp h
  exact List.getElem_mem hlt

theorem countP_pos_of_getElem? {α : Type} {l : List α} {i : Nat} {a : α}
    (h : l[i]? = some a) {p : α → Bool} (hp : p a = true) : 0 < l.countP p :=
  List.countP_pos_iff.mpr ⟨a, mem_of_getElem?_eq h, hp⟩

theorem incStrong_strongs (w : World) (a : Bool) :
    (w.IncreaseStrongCounter a).strongs = w.strongs := by
  unfold World.IncreaseStrongCounter World.touchBlock
  cases a
  · rfl
  · cases hc : w.cb
    · rfl
    · dsimp only
      repeat' split
      all_goals rfl

theorem incStrong_weaks (w : World) (a : Bool) :
    (w.IncreaseStrongCounter a).weaks = w.weaks := by
  unfold World.IncreaseStrongCounter World.touchBlock
  cases a
  · rfl
  · cases hc : w.cb
    · rfl
    · dsimp only
      repeat' split
      all_goals rfl

theorem incWeak_strongs (w : World) (a : Bool) :
    (w.IncreaseWeakCounter a).strongs = w.strongs := by
  unfold World.IncreaseWeakCounter World.touchBlock
  cases a
  · rfl
  · cases hc : w.cb
    · rfl
    · dsimp only
      repeat' split
      all_goals rfl

theorem incWeak_weaks (w : World) (a : Bool) :
    (w.IncreaseWeakCounter a).weaks = w.weaks := by
  unfold World.IncreaseWeakCounter World.touchBlock
  cases a
  · rfl
  · cases hc : w.cb
    · rfl
    · dsimp only
      repeat' split
      all_goals rfl

theorem decStrong_strongs (w : World) (a : Bool) :
    (w.DecreaseStrongCounter a).strongs = w.strongs := by
  unfold World.DecreaseStrongCounter World.destroyManaged World.freeBlock
  cases a
  · rfl
  · cases hc : w.cb
    · rfl
    · dsimp only
      repeat' split
      all_goals rfl

theorem decStrong_weaks (w : World) (a : Bool) :
    (w.DecreaseStrongCounter a).weaks = w.weaks := by
  unfold World.DecreaseStrongCounter World.destroyManaged World.freeBlock
  cases a
  · rfl
  · cases hc : w.cb
    · rfl
    · dsimp only
      repeat' split
      all_goals rfl

theorem decWeak_strongs (w : World) (a e : Bool) :
    (w.DecWeakWorld a e).strongs = w.strongs := by
  unfold World.DecWeakWorld World.freeBlock
  cases a
  · rfl
  · cases hc : w.cb
    · rfl
    · dsimp only
      repeat' split
      all_goals rfl

theorem decWeak_weaks (w : World) (a e : Bool) :
    (w.DecWeakWorld a e).weaks = w.weaks := by
  unfold World.DecWeakWorld World.freeBlock
  cases a
  · rfl
  · cases hc : w.cb
    · rfl
    · dsimp only
      repeat' split
      all_goals rfl

theorem two_le_countP {α : Type} {p : α → Bool} {l : List α} {i j : Nat} {a b : α}
    (hij : i ≠ j) (ha : l[i]? = some a) (hb : l[j]? = some b)
    (pa : p a = true) (pb : p b = true) : 2 ≤ l.countP p := by
  induction l generalizing i j with
  | nil => simp at ha
  | cons x xs ih =>
    cases i with
    | zero =>
      cases j with
      | zero => exact absurd rfl hij
      | succ n =>
        simp only [List.getElem?_cons_zero, Option.some.injEq] at ha
        subst ha
        simp only [List.getElem?_cons_succ] at hb
        have h1 : 0 < xs.countP p := countP_pos_of_getElem? hb pb
        rw [List.countP_cons]
        simp only [pa, if_true]
        omega
    | succ m =>
      cases j with
      | zero =>
        simp only [List.getElem?_cons_zero, Option.some.injEq] at hb
        subst hb
        simp only [List.getElem?_cons_succ] at ha
        have h1 : 0 < xs.countP p := countP_pos_of_getElem? ha pa
        rw [List.countP_cons]
        simp only [pb, if_true]
        omega
      | succ n =>
        simp only [List.getElem?_cons_succ] at ha hb
        have := ih (by omega : m ≠ n) ha hb
        rw [List.countP_cons]
        omega

theorem strong_attached_facts {w : World} (hw : WorldInv w) {i : Nat}
    {h : StrongHandle} (hg : w.strongs[i]? = some h) (hl : h.live = true)
    (ha : h.attached = true) :
    ∃ b, w.cb = some b ∧ 1 ≤ liveStrongCount w ∧ b.is_destroyed = false ∧
      b.strong_ref_cnt = liveStrongCount w := by
  have hpos : 0 < liveStrongCount w :=
    countP_pos_of_getElem? hg (by simp [hl, ha])
  cases hc : w.cb with
  | none => exact absurd (hw.cbNoneStrong hc) (by omega)
  | some b =>
    refine ⟨b, rfl, hpos, ?_, hw.strongAgrees b hc⟩
    by_cases hd : b.is_destroyed = true
    · have h0 := hw.destroyedZero b hc hd
      have h1 := hw.strongAgrees b hc
      omega
    · simpa using hd

theorem weak_attached_facts {w : World} (hw : WorldInv w) {i : Nat}
    {h : WeakHandle} (hg : w.weaks[i]? = some h) (hl : h.live = true)
    (ha : h.attached = true) :
    ∃ b, w.cb = some b ∧ 1 ≤ liveWeakCount w ∧
      b.weak_ref_cnt = liveWeakCount w := by
  have hpos : 0 < liveWeakCount w :=
    countP_pos_of_getElem? hg (by simp [hl, ha])
  cases hc : w.cb with
  | none => exact absurd (hw.cbNoneWeak hc) (by omega)
  | some b => exact ⟨b, rfl, hpos, hw.weakAgrees b hc⟩

theorem inv_withLists (w : World) (hw : WorldInv w) (L : List StrongHandle)
    (M : List WeakHandle)
    (hL : L.countP (fun h => h.live && h.attached) = liveStrongCount w)
    (hM : M.countP (fun h => h.live && h.attached) = liveWeakCount w)
    (hMf : ∀ h ∈ M, h.is_esft_ptr = false) :
    WorldInv (w.withLists L M) := by
  refine ⟨hw.uaf, ?_, ?_, ?_, ?_, ?_, ?_, ?_, ?_, hw.freedNone, hw.notFreedRuns,
      hw.freedRuns, hMf⟩ <;>
    dsimp only [World.withLists, liveStrongCount, liveWeakCount]
  · intro b hb
    rw [hL]
    exact hw.strongAgrees b hb
  · intro b hb
    rw [hM]
    exact hw.weakAgrees b hb
  · exact hw.zeroDestroyed
  · exact hw.destroyedZero
  · exact hw.aliveRuns
  · exact hw.destroyedRuns
  · intro hb
    rw [hL]
    exact hw.cbNoneStrong hb
  · intro hb
    rw [hM]
    exact hw.cbNoneWeak hb

theorem incStrong_false (w : World) : w.IncreaseStrongCounter false = w := rfl

theorem incWeak_false (w : World) : w.IncreaseWeakCounter false = w := rfl

theorem decStrong_false (w : World) : w.DecreaseStrongCounter false = w := rfl

theorem decWeak_false (w : World) (e : Bool) : w.DecWeakWorld false e = w := rfl

theorem incStrong_eq (w : World) (b : ControlBlockBase) (hcb : w.cb = some b) :
    w.IncreaseStrongCounter true = { w with cb := some b.IncStrongRef } := by
  unfold World.IncreaseStrongCounter World.touchBlock
  simp [hcb]

theorem incWeak_eq (w : World) (b : ControlBlockBase) (hcb : w.cb = some b) :
    w.IncreaseWeakCounter true = { w with cb := some b.IncWeakRef } := by
  unfold World.IncreaseWeakCounter World.touchBlock
  simp [hcb]

theorem decStrong_eq_many (w : World) (b : ControlBlockBase) (hcb : w.cb = some b)
    (h2 : 2 ≤ b.strong_ref_cnt) :
    w.DecreaseStrongCounter true = { w with cb := some b.DecStrongRef } := by
  unfold World.DecreaseStrongCounter
  simp only [hcb, if_true]
  rw [if_neg]
  simp [ControlBlockBase.DecStrongRef, ControlBlockBase.GetStrongCounter]
  omega

theorem decStrong_eq_destroy (w : World) (b : ControlBlockBase)
    (hcb : w.cb = some b) (hone : b.strong_ref_cnt = 1)
    (hnd : b.is_destroyed = false) (hwk : b.weak_ref_cnt ≠ 0) :
    w.DecreaseStrongCounter true =
      { w with
        cb := some ⟨0, b.weak_ref_cnt, true⟩,
        destructorRuns := w.destructorRuns + (if w.deletem_null then 0 else 1) } := by
  unfold World.DecreaseStrongCounter World.destroyManaged World.freeBlock
  simp only [hcb, if_true]
  rw [if_pos (by simp [ControlBlockBase.DecStrongRef,
    ControlBlockBase.GetStrongCounter]; omega)]
  simp only [ControlBlockBase.DecStrongRef, hnd]
  rw [if_neg (by simp [hnd])]
  dsimp only
  rw [if_neg]
  simp [ControlBlockBase.CanDeleteControlBlock, ControlBlockBase.GetAllCounter]
  omega

theorem decStrong_eq_free (w : World) (b : ControlBlockBase)
    (hcb : w.cb = some b) (hone : b.strong_ref_cnt = 1)
    (hnd : b.is_destroyed = false) (hwk : b.weak_ref_cnt = 0) :
    w.DecreaseStrongCounter true =
      { w with
        cb := none,
        blockFreed := true,
        destructorRuns := w.destructorRuns + (if w.deletem_null then 0 else 1) } := by
  unfold World.DecreaseStrongCounter World.destroyManaged World.freeBlock
  simp only [hcb, if_true]
  rw [if_pos (by simp [ControlBlockBase.DecStrongRef,
    ControlBlockBase.GetStrongCounter]; omega)]
  simp only [ControlBlockBase.DecStrongRef, hnd]
  rw [if_neg (by simp [hnd])]
  dsimp only
  rw [if_pos]
  simp [ControlBlockBase.CanDeleteControlBlock, ControlBlockBase.GetAllCounter, hwk]

theorem decWeak_eq_esft (w : World) (b : ControlBlockBase) (hcb : w.cb = some b) :
    w.DecWeakWorld true true = { w with cb := some b.DecWeakRef } := by
  unfold World.DecWeakWorld World.freeBlock
  simp [hcb]

theorem decWeak_eq_nofree (w : World) (b : ControlBlockBase) (hcb : w.cb = some b)
    (hcond : b.strong_ref_cnt + (b.weak_ref_cnt - 1) ≠ 0) :
    w.DecWeakWorld true false = { w with cb := some b.DecWeakRef } := by
  unfold World.DecWeakWorld World.freeBlock
  simp only [hcb, if_true]
  rw [if_neg]
  simp [ControlBlockBase.CanDeleteControlBlock, ControlBlockBase.GetAllCounter,
    ControlBlockBase.DecWeakRef]
  omega

theorem decWeak_eq_free (w : World) (b : ControlBlockBase) (hcb : w.cb = some b)
    (hs : b.strong_ref_cnt = 0) (hk : b.weak_ref_cnt = 1) :
    w.DecWeakWorld true false = { w with cb := none, blockFreed := true } := by
  unfold World.DecWeakWorld World.freeBlock
  simp only [hcb, if_true]
  have hc : (!false && (ControlBlockBase.DecWeakRef b).CanDeleteControlBlock) = true := by
    simp [ControlBlockBase.CanDeleteControlBlock, ControlBlockBase.GetAllCounter,
      ControlBlockBase.DecWeakRef, hs, hk]
  rw [if_pos hc]

theorem bf_false_of_some {w : World} (hw : WorldInv w) {b : ControlBlockBase}
    (hcb : w.cb = some b) : w.blockFreed = false := by
  by_cases hf : w.blockFreed = true
  · rw [hw.freedNone hf] at hcb
    simp at hcb
  · simpa using hf

theorem inv_mk_some (w : World) (hw : WorldInv w) (hbf : w.blockFreed = false)
    (b' : ControlBlockBase) (R : Nat) (L : List StrongHandle)
    (M : List WeakHandle)
    (h1 : b'.strong_ref_cnt = L.countP (fun h => h.live && h.attached))
    (h2 : b'.weak_ref_cnt = M.countP (fun h => h.live && h.attached))
    (h3 : b'.strong_ref_cnt = 0 → b'.is_destroyed = true)
    (h4 : b'.is_destroyed = true → b'.strong_ref_cnt = 0)
    (h5 : b'.is_destroyed = false → R = 0)
    (h6 : b'.is_destroyed = true → R = (if w.deletem_null then 0 else 1))
    (hMf : ∀ h ∈ M, h.is_esft_ptr = false) :
    WorldInv
      { w with
        cb := some b',
        destructorRuns := R,
        strongs := L,
        weaks := M } := by
  refine ⟨hw.uaf, ?_, ?_, ?_, ?_, ?_, ?_, ?_, ?_, ?_, ?_, ?_, hMf⟩ <;>
    dsimp only [liveStrongCount, liveWeakCount]
  · intro b hb
    simp only [Option.some.injEq] at hb
    subst hb
    exact h1
  · intro b hb
    simp only [Option.some.injEq] at hb
    subst hb
    exact h2
  · intro b hb
    simp only [Option.some.injEq] at hb
    subst hb
    exact h3
  · intro b hb
    simp only [Option.some.injEq] at hb
    subst hb
    exact h4
  · intro b hb
    simp only [Option.some.injEq] at hb
    subst hb
    exact h5
  · intro b hb
    simp only [Option.some.injEq] at hb
    subst hb
    exact h6
  · intro hb
    simp at hb
  · intro hb
    simp at hb
  · intro hf
    rw [hbf] at hf
    simp at hf
  · intro h1' h2'
    simp at h2'
  · intro hf
    rw [hbf] at hf
    simp at hf

theorem inv_mk_none (w : World) (hw : WorldInv w) (R : Nat)
    (L : List StrongHandle) (M : List WeakHandle)
    (hL : L.countP (fun h => h.live && h.attached) = 0)
    (hM : M.countP (fun h => h.live && h.attached) = 0)
    (hR : R = (if w.deletem_null then 0 else 1))
    (hMf : ∀ h ∈ M, h.is_esft_ptr = false) :
    WorldInv
      { w with
        cb := none,
        blockFreed := true,
        destructorRuns := R,
        strongs := L,
        weaks := M } := by
  refine ⟨hw.uaf, ?_, ?_, ?_, ?_, ?_, ?_, ?_, ?_, ?_, ?_, ?_, hMf⟩ <;>
    dsimp only [liveStrongCount, liveWeakCount]
  · intro b hb
    simp at hb
  · intro b hb
    simp at hb
  · intro b hb
    simp at hb
  · intro b hb
    simp at hb
  · intro b hb
    simp at hb
  · intro b hb
    simp at hb
  · intro _
    exact hL
  · intro _
    exact hM
  · intro _
    rfl
  · intro h1'
    simp at h1'
  · intro _
    exact hR

theorem pS_eval (a b c : Bool) :
    ((fun h => h.live && h.attached) (⟨a, b, c⟩ : StrongHandle)) = (a && b) := rfl

theorem pW_eval (a b c d : Bool) :
    ((fun h => h.live && h.attached) (⟨a, b, c, d⟩ : WeakHandle)) = (a && b) := rfl

theorem pS_null : ((fun h => h.live && h.attached) nullStrongHandle) = false := rfl

theorem pW_null (f : Bool) :
    ((fun h => h.live && h.attached) (nullWeakHandle f)) = false := rfl

theorem countS_def (w : World) :
    List.countP (fun h => h.live && h.attached) w.strongs = liveStrongCount w := rfl

theorem countW_def (w : World) :
    List.countP (fun h => h.live && h.attached) w.weaks = liveWeakCount w := rfl

theorem inv_step_newDefault (w : World) (hw : WorldInv w) :
    WorldInv (w.step Op.newDefault) := by
  simp only [World.step]
  refine inv_withLists w hw _ _ ?_ rfl hw.weakFlags
  rw [countP_append_one]
  simp [nullStrongHandle, pS_eval, countS_def]

theorem inv_step_weakNewDefault (w : World) (hw : WorldInv w) :
    WorldInv (w.step Op.weakNewDefault) := by
  simp only [World.step]
  refine inv_withLists w hw _ _ rfl ?_ ?_
  · rw [countP_append_one]
    simp [nullWeakHandle, pW_eval, countW_def]
  · intro h hmem
    simp only [List.mem_append, List.mem_singleton] at hmem
    rcases hmem with hmem | rfl
    · exact hw.weakFlags h hmem
    · rfl

theorem inv_step_copyCon (w : World) (i : Nat) (hw : WorldInv w) :
    WorldInv (w.step (Op.copyCon i)) := by
  simp only [World.step]
  cases hg : w.strongs[i]? with
  | none => exact hw
  | some h =>
    dsimp only
    by_cases hl : h.live = true
    · rw [if_pos hl]
      by_cases ha : h.attached = true
      · obtain ⟨b, hcb, hpos, hnd, hsa⟩ := strong_attached_facts hw hg hl ha
        simp only [ha]
        rw [incStrong_eq w b hcb]
        refine inv_mk_some w hw (bf_false_of_some hw hcb) b.IncStrongRef
          w.destructorRuns _ _ ?_ ?_ ?_ ?_ ?_ ?_ hw.weakFlags
        · rw [countP_append_one]
          simp only [pS_eval, countS_def, ControlBlockBase.IncStrongRef,
            Bool.and_self, if_true]
          omega
        · simpa [ControlBlockBase.IncStrongRef] using hw.weakAgrees b hcb
        · intro hz
          simp [ControlBlockBase.IncStrongRef] at hz
        · intro hd
          simp only [ControlBlockBase.IncStrongRef] at hd
          rw [hnd] at hd
          simp at hd
        · intro _
          exact hw.aliveRuns b hcb hnd
        · intro hd
          simp only [ControlBlockBase.IncStrongRef] at hd
          rw [hnd] at hd
          simp at hd
      · rw [Bool.not_eq_true] at ha
        simp only [ha, incStrong_false]
        refine inv_withLists w hw _ _ ?_ rfl hw.weakFlags
        rw [countP_append_one]
        simp [pS_eval, countS_def]
    · rw [if_neg hl]
      exact hw

theorem inv_step_aliasCon (w : World) (i : Nat) (p : Bool) (hw : WorldInv w) :
    WorldInv (w.step (Op.aliasCon i p)) := by
  simp only [World.step]
  cases hg : w.strongs[i]? with
  | none => exact hw
  | some h =>
    dsimp only
    by_cases hl : h.live = true
    · rw [if_pos hl]
      by_cases ha : h.attached = true
      · obtain ⟨b, hcb, hpos, hnd, hsa⟩ := strong_attached_facts hw hg hl ha
        simp only [ha]
        rw [incStrong_eq w b hcb]
        refine inv_mk_some w hw (bf_false_of_some hw hcb) b.IncStrongRef
          w.destructorRuns _ _ ?_ ?_ ?_ ?_ ?_ ?_ hw.weakFlags
        · rw [countP_append_one]
          simp only [pS_eval, countS_def, ControlBlockBase.IncStrongRef,
            Bool.and_self, if_true]
          omega
        · simpa [ControlBlockBase.IncStrongRef] using hw.weakAgrees b hcb
        · intro hz
          simp [ControlBlockBase.IncStrongRef] at hz
        · intro hd
          simp only [ControlBlockBase.IncStrongRef] at hd
          rw [hnd] at hd
          simp at hd
        · intro _
          exact hw.aliveRuns b hcb hnd
        · intro hd
          simp only [ControlBlockBase.IncStrongRef] at hd
          rw [hnd] at hd
          simp at hd
      · rw [Bool.not_eq_true] at ha
        simp only [ha, incStrong_false]
        refine inv_withLists w hw _ _ ?_ rfl hw.weakFlags
        rw [countP_append_one]
        simp [pS_eval, countS_def]
    · rw [if_neg hl]
      exact hw

theorem inv_step_newFromRaw (w : World) (p : Bool) (hw : WorldInv w) :
    WorldInv (w.step (Op.newFromRaw p)) := by
  simp only [World.step]
  by_cases hcond : (w.cb.isNone && !w.blockFreed) = true
  · rw [if_pos hcond]
    simp only [Bool.and_eq_true, Option.isNone_iff_eq_none, Bool.not_eq_true']
      at hcond
    obtain ⟨hcbn, hbf⟩ := hcond
    rw [incStrong_eq _ ⟨0, 0, false⟩ rfl]
    have hs0 : List.countP (fun h => h.live && h.attached) w.strongs = 0 :=
      hw.cbNoneStrong hcbn
    have hw0 : List.countP (fun h => h.live && h.attached) w.weaks = 0 :=
      hw.cbNoneWeak hcbn
    have hr0 : w.destructorRuns = 0 := hw.notFreedRuns hbf hcbn
    have hwB : WorldInv { w with deletem_null := p } := by
      refine ⟨hw.uaf, ?_, ?_, ?_, ?_, ?_, ?_, hw.cbNoneStrong, hw.cbNoneWeak,
        hw.freedNone, hw.notFreedRuns, ?_, hw.weakFlags⟩
      · intro b hb
        rw [hcbn] at hb
        simp at hb
      · intro b hb
        rw [hcbn] at hb
        simp at hb
      · intro b hb
        rw [hcbn] at hb
        simp at hb
      · intro b hb
        rw [hcbn] at hb
        simp at hb
      · intro b hb
        rw [hcbn] at hb
        simp at hb
      · intro b hb
        rw [hcbn] at hb
        simp at hb
      · intro hf
        rw [hbf] at hf
        simp at hf
    refine inv_mk_some { w with deletem_null := p } hwB hbf
      (ControlBlockBase.IncStrongRef ⟨0, 0, false⟩) w.destructorRuns _ _
      ?_ ?_ ?_ ?_ ?_ ?_ hw.weakFlags
    · rw [countP_append_one]
      simp only [pS_eval, ControlBlockBase.IncStrongRef, Bool.and_self, if_true]
      omega
    · simpa [ControlBlockBase.IncStrongRef] using hw0.symm
    · intro hz
      simp [ControlBlockBase.IncStrongRef] at hz
    · intro hd
      simp [ControlBlockBase.IncStrongRef] at hd
    · intro _
      exact hr0
    · intro hd
      simp [ControlBlockBase.IncStrongRef] at hd
  · rw [if_neg hcond]
    exact hw

theorem inv_step_lockW (w : World) (i : Nat) (hw : WorldInv w) :
    WorldInv (w.step (Op.lockW i)) := by
  simp only [World.step]
  cases hg : w.weaks[i]? with
  | none => exact hw
  | some h =>
    dsimp only
    by_cases hl : h.live = true
    · rw [if_pos hl]
      by_cases ha : h.attached = true
      · obtain ⟨b, hcb, hpos, hwa⟩ := weak_attached_facts hw hg hl ha
        rw [if_pos ha]
        simp only [hcb]
        by_cases hd : b.IsDestroyed = true
        · rw [if_pos hd]
          rw [← hcb]
          refine inv_withLists w hw _ _ ?_ rfl hw.weakFlags
          rw [countP_append_one]
          simp [nullStrongHandle, pS_eval, countS_def]
        · rw [if_neg hd]
          rw [incStrong_eq w b hcb]
          have hnd : b.is_destroyed = false := by
            rw [Bool.not_eq_true] at hd
            simpa [ControlBlockBase.IsDestroyed] using hd
          have hsa := hw.strongAgrees b hcb
          refine inv_mk_some w hw (bf_false_of_some hw hcb) b.IncStrongRef
            w.destructorRuns _ _ ?_ ?_ ?_ ?_ ?_ ?_ hw.weakFlags
          · rw [countP_append_one]
            simp only [pS_eval, countS_def, ControlBlockBase.IncStrongRef,
              Bool.and_self, if_true]
            omega
          · simpa [ControlBlockBase.IncStrongRef] using hw.weakAgrees b hcb
          · intro hz
            simp [ControlBlockBase.IncStrongRef] at hz
          · intro hdd
            simp only [ControlBlockBase.IncStrongRef] at hdd
            rw [hnd] at hdd
            simp at hdd
          · intro _
            exact hw.aliveRuns b hcb hnd
          · intro hdd
            simp only [ControlBlockBase.IncStrongRef] at hdd
            rw [hnd] at hdd
            simp at hdd
      · rw [if_neg ha]
        refine inv_withLists w hw _ _ ?_ rfl hw.weakFlags
        rw [countP_append_one]
        simp [nullStrongHandle, pS_eval, countS_def]
    · rw [if_neg hl]
      exact hw

theorem inv_step_moveCon (w : World) (i : Nat) (hw : WorldInv w) :
    WorldInv (w.step (Op.moveCon i)) := by
  simp only [World.step]
  cases hg : w.strongs[i]? with
  | none => exact hw
  | some h =>
    dsimp only
    by_cases hl : h.live = true
    · rw [if_pos hl]
      obtain ⟨hlt, hgeq⟩ := List.getElem?_eq_some.mp hg
      have hbal := countP_set_one w.strongs i nullStrongHandle
        (fun x => x.live && x.attached) hlt
      rw [hgeq] at hbal
      refine inv_withLists w hw _ _ ?_ rfl hw.weakFlags
      rw [countP_append_one]
      by_cases ha : h.attached = true
      · simp [nullStrongHandle, hl, ha, countS_def] at hbal ⊢
        omega
      · rw [Bool.not_eq_true] at ha
        simp [nullStrongHandle, hl, ha, countS_def] at hbal ⊢
        omega
    · rw [if_neg hl]
      exact hw

theorem inv_step_swapS (w : World) (i j : Nat) (hw : WorldInv w) :
    WorldInv (w.step (Op.swapS i j)) := by
  simp only [World.step]
  cases hgi : w.strongs[i]? with
  | none => exact hw
  | some hi =>
    cases hgj : w.strongs[j]? with
    | none => exact hw
    | some hj =>
      dsimp only
      by_cases hll : (hi.live && hj.live) = true
      · rw [if_pos hll]
        rw [Bool.and_eq_true] at hll
        obtain ⟨hl1, hl2⟩ := hll
        by_cases hij : i = j
        · subst hij
          rw [hgi] at hgj
          injection hgj with hij'
          subst hij'
          rw [List.set_set]
          obtain ⟨hlt, hgeq⟩ := List.getElem?_eq_some.mp hgi
          have hbal := countP_set_one w.strongs i
            (⟨true, hi.attached, hi.ptr_null⟩ : StrongHandle)
            (fun x => x.live && x.attached) hlt
          rw [hgeq] at hbal
          refine inv_withLists w hw _ _ ?_ rfl hw.weakFlags
          simp only [countS_def] at hbal ⊢
          cases hatt : hi.attached <;> simp [hl1, hatt] at hbal ⊢ <;> omega
        · obtain ⟨hlt1, hgeq1⟩ := List.getElem?_eq_some.mp hgi
          have hbal1 := countP_set_one w.strongs i
            (⟨true, hj.attached, hj.ptr_null⟩ : StrongHandle)
            (fun x => x.live && x.attached) hlt1
          rw [hgeq1] at hbal1
          have hgj2 : (w.strongs.set i
              (⟨true, hj.attached, hj.ptr_null⟩ : StrongHandle))[j]? = some hj := by
            rw [List.getElem?_set_ne hij]
            exact hgj
          obtain ⟨hlt2, hgeq2⟩ := List.getElem?_eq_some.mp hgj2
          have hbal2 := countP_set_one _ j
            (⟨true, hi.attached, hi.ptr_null⟩ : StrongHandle)
            (fun x => x.live && x.attached) hlt2
          rw [hgeq2] at hbal2
          refine inv_withLists w hw _ _ ?_ rfl hw.weakFlags
          simp only [countS_def] at hbal1 hbal2 ⊢
          cases ha1 : hi.attached <;> cases ha2 : hj.attached <;>
            simp [hl1, hl2, ha1, ha2] at hbal1 hbal2 ⊢ <;> omega
      · rw [if_neg hll]
        exact hw

theorem inv_step_resetS (w : World) (i : Nat) (hw : WorldInv w) :
    WorldInv (w.step (Op.resetS i)) := by
  simp only [World.step]
  cases hg : w.strongs[i]? with
  | none => exact hw
  | some h =>
    dsimp only
    by_cases hl : h.live = true
    · rw [if_pos hl]
      obtain ⟨hlt, hgeq⟩ := List.getElem?_eq_some.mp hg
      have hbal := countP_set_one w.strongs i nullStrongHandle
        (fun x => x.live && x.attached) hlt
      rw [hgeq] at hbal
      by_cases ha : h.attached = true
      · obtain ⟨b, hcb, hpos, hnd, hsa⟩ := strong_attached_facts hw hg hl ha
        simp [pS_null, hl, ha, countS_def] at hbal
        simp only [ha]
        have hr0 : w.destructorRuns = 0 := hw.aliveRuns b hcb hnd
        by_cases hone : liveStrongCount w = 1
        · by_cases hwk : liveWeakCount w = 0
          · rw [decStrong_eq_free w b hcb (by omega) hnd
              (by rw [hw.weakAgrees b hcb]; exact hwk)]
            refine inv_mk_none w hw _ _ _ ?_ ?_ ?_ hw.weakFlags
            · dsimp only
              omega
            · rw [countW_def]
              exact hwk
            · rw [hr0]
              simp
          · rw [decStrong_eq_destroy w b hcb (by omega) hnd
              (by rw [hw.weakAgrees b hcb]; exact hwk)]
            refine inv_mk_some w hw (bf_false_of_some hw hcb)
              ⟨0, b.weak_ref_cnt, true⟩ _ _ _ ?_ ?_ ?_ ?_ ?_ ?_ hw.weakFlags
            · dsimp only
              omega
            · rw [countW_def]
              exact hw.weakAgrees b hcb
            · intro _
              rfl
            · intro _
              rfl
            · intro hd
              simp at hd
            · intro _
              rw [hr0]
              simp
        · rw [decStrong_eq_many w b hcb (by omega)]
          refine inv_mk_some w hw (bf_false_of_some hw hcb) b.DecStrongRef
            w.destructorRuns _ _ ?_ ?_ ?_ ?_ ?_ ?_ hw.weakFlags
          · simp only [ControlBlockBase.DecStrongRef]
            omega
          · rw [countW_def]
            simpa [ControlBlockBase.DecStrongRef] using hw.weakAgrees b hcb
          · intro hz
            simp only [ControlBlockBase.DecStrongRef] at hz
            omega
          · intro hd
            simp only [ControlBlockBase.DecStrongRef] at hd
            rw [hnd] at hd
            simp at hd
          · intro _
            exact hr0
          · intro hd
            simp only [ControlBlockBase.DecStrongRef] at hd
            rw [hnd] at hd
            simp at hd
      · rw [Bool.not_eq_true] at ha
        simp only [ha, decStrong_false]
        refine inv_withLists w hw _ _ ?_ rfl hw.weakFlags
        simp [pS_null, hl, ha, countS_def] at hbal ⊢
        omega
    · rw [if_neg hl]
      exact hw

theorem inv_step_destructS (w : World) (i : Nat) (hw : WorldInv w) :
    WorldInv (w.step (Op.destructS i)) := by
  simp only [World.step]
  cases hg : w.strongs[i]? with
  | none => exact hw
  | some h =>
    dsimp only
    by_cases hl : h.live = true
    · rw [if_pos hl]
      obtain ⟨hlt, hgeq⟩ := List.getElem?_eq_some.mp hg
      have hbal := countP_set_one w.strongs i
        (⟨false, false, true⟩ : StrongHandle)
        (fun x => x.live && x.attached) hlt
      rw [hgeq] at hbal
      by_cases ha : h.attached = true
      · obtain ⟨b, hcb, hpos, hnd, hsa⟩ := strong_attached_facts hw hg hl ha
        simp [hl, ha, countS_def] at hbal
        simp only [ha]
        have hr0 : w.destructorRuns = 0 := hw.aliveRuns b hcb hnd
        by_cases hone : liveStrongCount w = 1
        · by_cases hwk : liveWeakCount w = 0
          · rw [decStrong_eq_free w b hcb (by omega) hnd
              (by rw [hw.weakAgrees b hcb]; exact hwk)]
            refine inv_mk_none w hw _ _ _ ?_ ?_ ?_ hw.weakFlags
            · dsimp only
              omega
            · rw [countW_def]
              exact hwk
            · rw [hr0]
              simp
          · rw [decStrong_eq_destroy w b hcb (by omega) hnd
              (by rw [hw.weakAgrees b hcb]; exact hwk)]
            refine inv_mk_some w hw (bf_false_of_some hw hcb)
              ⟨0, b.weak_ref_cnt, true⟩ _ _ _ ?_ ?_ ?_ ?_ ?_ ?_ hw.weakFlags
            · dsimp only
              omega
            · rw [countW_def]
              exact hw.weakAgrees b hcb
            · intro _
              rfl
            · intro _
              rfl
            · intro hd
              simp at hd
            · intro _
              rw [hr0]
              simp
        · rw [decStrong_eq_many w b hcb (by omega)]
          refine inv_mk_some w hw (bf_false_of_some hw hcb) b.DecStrongRef
            w.destructorRuns _ _ ?_ ?_ ?_ ?_ ?_ ?_ hw.weakFlags
          · simp only [ControlBlockBase.DecStrongRef]
            omega
          · rw [countW_def]
            simpa [ControlBlockBase.DecStrongRef] using hw.weakAgrees b hcb
          · intro hz
            simp only [ControlBlockBase.DecStrongRef] at hz
            omega
          · intro hd
            simp only [ControlBlockBase.DecStrongRef] at hd
            rw [hnd] at hd
            simp at hd
          · intro _
            exact hr0
          · intro hd
            simp only [ControlBlockBase.DecStrongRef] at hd
            rw [hnd] at hd
            simp at hd
      · rw [Bool.not_eq_true] at ha
        simp only [ha, decStrong_false]
        refine inv_withLists w hw _ _ ?_ rfl hw.weakFlags
        simp [hl, ha, countS_def] at hbal ⊢
        omega
    · rw [if_neg hl]
      exact hw

theorem inv_step_copyAssign (w : World) (i j : Nat) (hw : WorldInv w) :
    WorldInv (w.step (Op.copyAssign i j)) := by
  simp only [World.step]
  by_cases hij : i = j
  · rw [if_pos hij]
    exact hw
  · rw [if_neg hij]
    cases hgi : w.strongs[i]? with
    | none => exact hw
    | some hi =>
      cases hgj : w.strongs[j]? with
      | none => exact hw
      | some hj =>
        dsimp only
        by_cases hll : (hi.live && hj.live) = true
        · rw [if_pos hll]
          rw [Bool.and_eq_true] at hll
          obtain ⟨hl1, hl2⟩ := hll
          obtain ⟨hlt1, hgeq1⟩ := List.getElem?_eq_some.mp hgi
          by_cases ha1 : hi.attached = true
          · by_cases ha2 : hj.attached = true
            · obtain ⟨b, hcb, hpos, hnd, hsa⟩ := strong_attached_facts hw hgi hl1 ha1
              have hcnt2 : 2 ≤ liveStrongCount w := by
                rw [← countS_def]
                exact two_le_countP hij hgi hgj (by simp [hl1, ha1])
                  (by simp [hl2, ha2])
              have hbal := countP_set_one w.strongs i
                (⟨true, hj.attached, hj.ptr_null⟩ : StrongHandle)
                (fun x => x.live && x.attached) hlt1
              rw [hgeq1] at hbal
              simp [hl1, ha1, ha2, countS_def] at hbal
              simp only [ha1, ha2]
              rw [decStrong_eq_many w b hcb (by omega)]
              rw [incStrong_eq _ b.DecStrongRef rfl]
              refine inv_mk_some w hw (bf_false_of_some hw hcb)
                b.DecStrongRef.IncStrongRef w.destructorRuns _ _
                ?_ ?_ ?_ ?_ ?_ ?_ hw.weakFlags
              · simp only [ControlBlockBase.DecStrongRef,
                  ControlBlockBase.IncStrongRef]
                omega
              · rw [countW_def]
                simpa [ControlBlockBase.DecStrongRef,
                  ControlBlockBase.IncStrongRef] using hw.weakAgrees b hcb
              · intro hz
                simp only [ControlBlockBase.DecStrongRef,
                  ControlBlockBase.IncStrongRef] at hz
                omega
              · intro hd
                simp only [ControlBlockBase.DecStrongRef,
                  ControlBlockBase.IncStrongRef] at hd
                rw [hnd] at hd
                simp at hd
              · intro _
                exact hw.aliveRuns b hcb hnd
              · intro hd
                simp only [ControlBlockBase.DecStrongRef,
                  ControlBlockBase.IncStrongRef] at hd
                rw [hnd] at hd
                simp at hd
            · rw [Bool.not_eq_true] at ha2
              obtain ⟨b, hcb, hpos, hnd, hsa⟩ := strong_attached_facts hw hgi hl1 ha1
              have hbal := countP_set_one w.strongs i
                (⟨true, hj.attached, hj.ptr_null⟩ : StrongHandle)
                (fun x => x.live && x.attached) hlt1
              rw [hgeq1] at hbal
              simp [hl1, ha1, ha2, countS_def] at hbal
              simp only [ha1, ha2, incStrong_false]
              have hr0 : w.destructorRuns = 0 := hw.aliveRuns b hcb hnd
              by_cases hone : liveStrongCount w = 1
              · by_cases hwk : liveWeakCount w = 0
                · rw [decStrong_eq_free w b hcb (by omega) hnd
                    (by rw [hw.weakAgrees b hcb]; exact hwk)]
                  refine inv_mk_none w hw _ _ _ ?_ ?_ ?_ hw.weakFlags
                  · dsimp only
                    omega
                  · rw [countW_def]
                    exact hwk
                  · rw [hr0]
                    simp
                · rw [decStrong_eq_destroy w b hcb (by omega) hnd
                    (by rw [hw.weakAgrees b hcb]; exact hwk)]
                  refine inv_mk_some w hw (bf_false_of_some hw hcb)
                    ⟨0, b.weak_ref_cnt, true⟩ _ _ _ ?_ ?_ ?_ ?_ ?_ ?_ hw.weakFlags
                  · dsimp only
                    omega
                  · rw [countW_def]
                    exact hw.weakAgrees b hcb
                  · intro _
                    rfl
                  · intro _
                    rfl
                  · intro hd
                    simp at hd
                  · intro _
                    rw [hr0]
                    simp
              · rw [decStrong_eq_many w b hcb (by omega)]
                refine inv_mk_some w hw (bf_false_of_some hw hcb) b.DecStrongRef
                  w.destructorRuns _ _ ?_ ?_ ?_ ?_ ?_ ?_ hw.weakFlags
                · simp only [ControlBlockBase.DecStrongRef]
                  omega
                · rw [countW_def]
                  simpa [ControlBlockBase.DecStrongRef] using hw.weakAgrees b hcb
                · intro hz
                  simp only [ControlBlockBase.DecStrongRef] at hz
                  omega
                · intro hd
                  simp only [ControlBlockBase.DecStrongRef] at hd
                  rw [hnd] at hd
                  simp at hd
                · intro _
                  exact hr0
                · intro hd
                  simp only [ControlBlockBase.DecStrongRef] at hd
                  rw [hnd] at hd
                  simp at hd
          · rw [Bool.not_eq_true] at ha1
            by_cases ha2 : hj.attached = true
            · obtain ⟨b, hcb, hpos, hnd, hsa⟩ := strong_attached_facts hw hgj hl2 ha2
              have hbal := countP_set_one w.strongs i
                (⟨true, hj.attached, hj.ptr_null⟩ : StrongHandle)
                (fun x => x.live && x.attached) hlt1
              rw [hgeq1] at hbal
              simp [hl1, ha1, ha2, countS_def] at hbal
              simp only [ha1, ha2, decStrong_false]
              rw [incStrong_eq w b hcb]
              refine inv_mk_some w hw (bf_false_of_some hw hcb) b.IncStrongRef
                w.destructorRuns _ _ ?_ ?_ ?_ ?_ ?_ ?_ hw.weakFlags
              · simp only [ControlBlockBase.IncStrongRef]
                omega
              · rw [countW_def]
                simpa [ControlBlockBase.IncStrongRef] using hw.weakAgrees b hcb
              · intro hz
                simp [ControlBlockBase.IncStrongRef] at hz
              · intro hd
                simp only [ControlBlockBase.IncStrongRef] at hd
                rw [hnd] at hd
                simp at hd
              · intro _
                exact hw.aliveRuns b hcb hnd
              · intro hd
                simp only [ControlBlockBase.IncStrongRef] at hd
                rw [hnd] at hd
                simp at hd
            · rw [Bool.not_eq_true] at ha2
              have hbal := countP_set_one w.strongs i
                (⟨true, hj.attached, hj.ptr_null⟩ : StrongHandle)
                (fun x => x.live && x.attached) hlt1
              rw [hgeq1] at hbal
              simp [hl1, ha1, ha2, countS_def] at hbal
              simp only [ha1, ha2, decStrong_false, incStrong_false]
              refine inv_withLists w hw _ _ ?_ rfl hw.weakFlags
              omega
        · rw [if_neg hll]
          exact hw

theorem inv_step_moveAssign (w : World) (i j : Nat) (hw : WorldInv w) :
    WorldInv (w.step (Op.moveAssign i j)) := by
  simp only [World.step]
  by_cases hij : i = j
  · rw [if_pos hij]
    exact hw
  · rw [if_neg hij]
    cases hgi : w.strongs[i]? with
    | none => exact hw
    | some hi =>
      cases hgj : w.strongs[j]? with
      | none => exact hw
      | some hj =>
        dsimp only
        by_cases hll : (hi.live && hj.live) = true
        · rw [if_pos hll]
          rw [Bool.and_eq_true] at hll
          obtain ⟨hl1, hl2⟩ := hll
          obtain ⟨hlt1, hgeq1⟩ := List.getElem?_eq_some.mp hgi
          have hbal1 := countP_set_one w.strongs i
            (⟨true, hj.attached, hj.ptr_null⟩ : StrongHandle)
            (fun x => x.live && x.attached) hlt1
          rw [hgeq1] at hbal1
          have hgj2 : (w.strongs.set i
              (⟨true, hj.attached, hj.ptr_null⟩ : StrongHandle))[j]? = some hj := by
            rw [List.getElem?_set_ne hij]
            exact hgj
          obtain ⟨hlt2, hgeq2⟩ := List.getElem?_eq_some.mp hgj2
          have hbal2 := countP_set_one _ j nullStrongHandle
            (fun x => x.live && x.attached) hlt2
          rw [hgeq2] at hbal2
          by_cases ha1 : hi.attached = true
          · obtain ⟨b, hcb, hpos, hnd, hsa⟩ := strong_attached_facts hw hgi hl1 ha1
            simp [pS_null, hl1, hl2, ha1, countS_def] at hbal1 hbal2
            simp only [ha1]
            have hr0 : w.destructorRuns = 0 := hw.aliveRuns b hcb hnd
            by_cases hone : liveStrongCount w = 1
            · have ha2 : hj.attached = false := by
                by_cases ha2' : hj.attached = true
                · have : 2 ≤ liveStrongCount w := by
                    rw [← countS_def]
                    exact two_le_countP hij hgi hgj (by simp [hl1, ha1])
                      (by simp [hl2, ha2'])
                  omega
                · rw [Bool.not_eq_true] at ha2'
                  exact ha2'
              simp only [ha2] at hbal1 hbal2 ⊢
              simp at hbal1 hbal2
              by_cases hwk : liveWeakCount w = 0
              · rw [decStrong_eq_free w b hcb (by omega) hnd
                  (by rw [hw.weakAgrees b hcb]; exact hwk)]
                refine inv_mk_none w hw _ _ _ ?_ ?_ ?_ hw.weakFlags
                · dsimp only
                  omega
                · rw [countW_def]
                  exact hwk
                · rw [hr0]
                  simp
              · rw [decStrong_eq_destroy w b hcb (by omega) hnd
                  (by rw [hw.weakAgrees b hcb]; exact hwk)]
                refine inv_mk_some w hw (bf_false_of_some hw hcb)
                  ⟨0, b.weak_ref_cnt, true⟩ _ _ _ ?_ ?_ ?_ ?_ ?_ ?_ hw.weakFlags
                · dsimp only
                  omega
                · rw [countW_def]
                  exact hw.weakAgrees b hcb
                · intro _
                  rfl
                · intro _
                  rfl
                · intro hd
                  simp at hd
                · intro _
                  rw [hr0]
                  simp
            · rw [decStrong_eq_many w b hcb (by omega)]
              refine inv_mk_some w hw (bf_false_of_some hw hcb) b.DecStrongRef
                w.destructorRuns _ _ ?_ ?_ ?_ ?_ ?_ ?_ hw.weakFlags
              · simp only [ControlBlockBase.DecStrongRef]
                cases ha2 : hj.attached <;> simp [ha2] at hbal1 hbal2 ⊢ <;> omega
              · rw [countW_def]
                simpa [ControlBlockBase.DecStrongRef] using hw.weakAgrees b hcb
              · intro hz
                simp only [ControlBlockBase.DecStrongRef] at hz
                omega
              · intro hd
                simp only [ControlBlockBase.DecStrongRef] at hd
                rw [hnd] at hd
                simp at hd
              · intro _
                exact hr0
              · intro hd
                simp only [ControlBlockBase.DecStrongRef] at hd
                rw [hnd] at hd
                simp at hd
          · rw [Bool.not_eq_true] at ha1
            simp [pS_null, hl1, hl2, ha1, countS_def] at hbal1 hbal2
            simp only [ha1, decStrong_false]
            refine inv_withLists w hw _ _ ?_ rfl hw.weakFlags
            cases ha2 : hj.attached <;> simp [ha2] at hbal1 hbal2 ⊢ <;> omega
        · rw [if_neg hll]
          exact hw

theorem flags_of_set {M : List WeakHandle}
    (hf : ∀ x ∈ M, x.is_esft_ptr = false) (i : Nat) (a : WeakHandle)
    (haf : a.is_esft_ptr = false) : ∀ x ∈ M.set i a, x.is_esft_ptr = false := by
  intro x hx
  rcases List.mem_or_eq_of_mem_set hx with hx | rfl
  · exact hf x hx
  · exact haf

theorem flags_of_append {M : List WeakHandle}
    (hf : ∀ x ∈ M, x.is_esft_ptr = false) (a : WeakHandle)
    (haf : a.is_esft_ptr = false) : ∀ x ∈ M ++ [a], x.is_esft_ptr = false := by
  intro x hx
  simp only [List.mem_append, List.mem_singleton] at hx
  rcases hx with hx | rfl
  · exact hf x hx
  · exact haf

theorem inv_step_weakFromShared (w : World) (i : Nat) (hw : WorldInv w) :
    WorldInv (w.step (Op.weakFromShared i)) := by
  simp only [World.step]
  cases hg : w.strongs[i]? with
  | none => exact hw
  | some h =>
    dsimp only
    by_cases hl : h.live = true
    · rw [if_pos hl]
      by_cases ha : h.attached = true
      · obtain ⟨b, hcb, hpos, hnd, hsa⟩ := strong_attached_facts hw hg hl ha
        simp only [ha]
        rw [incWeak_eq w b hcb]
        refine inv_mk_some w hw (bf_false_of_some hw hcb) b.IncWeakRef
          w.destructorRuns _ _ ?_ ?_ ?_ ?_ ?_ ?_
          (flags_of_append hw.weakFlags _ rfl)
        · simp only [ControlBlockBase.IncWeakRef]
          rw [countS_def]
          exact hsa
        · rw [countP_append_one]
          simp only [ControlBlockBase.IncWeakRef, pW_eval, countW_def,
            Bool.and_self, if_true]
          have := hw.weakAgrees b hcb
          omega
        · simpa [ControlBlockBase.IncWeakRef] using hw.zeroDestroyed b hcb
        · simpa [ControlBlockBase.IncWeakRef] using hw.destroyedZero b hcb
        · intro hd
          exact hw.aliveRuns b hcb (by simpa [ControlBlockBase.IncWeakRef] using hd)
        · intro hd
          exact hw.destroyedRuns b hcb
            (by simpa [ControlBlockBase.IncWeakRef] using hd)
      · rw [Bool.not_eq_true] at ha
        simp only [ha, incWeak_false]
        refine inv_withLists w hw _ _ rfl ?_
          (flags_of_append hw.weakFlags _ rfl)
        rw [countP_append_one]
        simp [pW_eval, countW_def]
    · rw [if_neg hl]
      exact hw

theorem inv_step_weakCopyCon (w : World) (i : Nat) (hw : WorldInv w) :
    WorldInv (w.step (Op.weakCopyCon i)) := by
  simp only [World.step]
  cases hg : w.weaks[i]? with
  | none => exact hw
  | some h =>
    dsimp only
    by_cases hl : h.live = true
    · rw [if_pos hl]
      by_cases ha : h.attached = true
      · obtain ⟨b, hcb, hpos, hwa⟩ := weak_attached_facts hw hg hl ha
        simp only [ha]
        rw [incWeak_eq w b hcb]
        refine inv_mk_some w hw (bf_false_of_some hw hcb) b.IncWeakRef
          w.destructorRuns _ _ ?_ ?_ ?_ ?_ ?_ ?_
          (flags_of_append hw.weakFlags _ rfl)
        · simp only [ControlBlockBase.IncWeakRef]
          rw [countS_def]
          exact hw.strongAgrees b hcb
        · rw [countP_append_one]
          simp only [ControlBlockBase.IncWeakRef, pW_eval, countW_def,
            Bool.and_self, if_true]
          omega
        · simpa [ControlBlockBase.IncWeakRef] using hw.zeroDestroyed b hcb
        · simpa [ControlBlockBase.IncWeakRef] using hw.destroyedZero b hcb
        · intro hd
          exact hw.aliveRuns b hcb (by simpa [ControlBlockBase.IncWeakRef] using hd)
        · intro hd
          exact hw.destroyedRuns b hcb
            (by simpa [ControlBlockBase.IncWeakRef] using hd)
      · rw [Bool.not_eq_true] at ha
        simp only [ha, incWeak_false]
        refine inv_withLists w hw _ _ rfl ?_
          (flags_of_append hw.weakFlags _ rfl)
        rw [countP_append_one]
        simp [pW_eval, countW_def]
    · rw [if_neg hl]
      exact hw

theorem inv_step_weakMoveCon (w : World) (i : Nat) (hw : WorldInv w) :
    WorldInv (w.step (Op.weakMoveCon i)) := by
  simp only [World.step]
  cases hg : w.weaks[i]? with
  | none => exact hw
  | some h =>
    dsimp only
    by_cases hl : h.live = true
    · rw [if_pos hl]
      have hfl : h.is_esft_ptr = false := hw.weakFlags h (mem_of_getElem?_eq hg)
      obtain ⟨hlt, hgeq⟩ := List.getElem?_eq_some.mp hg
      by_cases ha : h.attached = true
      · obtain ⟨b, hcb, hpos, hwa⟩ := weak_attached_facts hw hg hl ha
        simp only [ha, hfl]
        rw [incWeak_eq w b hcb]
        rw [decWeak_eq_nofree _ b.IncWeakRef rfl
          (by simp only [ControlBlockBase.IncWeakRef]; omega)]
        have hbal := countP_set_one w.weaks i (nullWeakHandle false)
          (fun x => x.live && x.attached) hlt
        rw [hgeq] at hbal
        simp [pW_null, hl, ha, countW_def] at hbal
        refine inv_mk_some w hw (bf_false_of_some hw hcb)
          b.IncWeakRef.DecWeakRef w.destructorRuns _ _ ?_ ?_ ?_ ?_ ?_ ?_
          (flags_of_append (flags_of_set hw.weakFlags i _ rfl) _ rfl)
        · simp only [ControlBlockBase.IncWeakRef, ControlBlockBase.DecWeakRef]
          rw [countS_def]
          exact hw.strongAgrees b hcb
        · rw [countP_append_one]
          simp only [ControlBlockBase.IncWeakRef, ControlBlockBase.DecWeakRef,
            pW_eval, Bool.and_self, if_true]
          omega
        · simpa [ControlBlockBase.IncWeakRef, ControlBlockBase.DecWeakRef]
            using hw.zeroDestroyed b hcb
        · simpa [ControlBlockBase.IncWeakRef, ControlBlockBase.DecWeakRef]
            using hw.destroyedZero b hcb
        · intro hd
          exact hw.aliveRuns b hcb
            (by simpa [ControlBlockBase.IncWeakRef,
              ControlBlockBase.DecWeakRef] using hd)
        · intro hd
          exact hw.destroyedRuns b hcb
            (by simpa [ControlBlockBase.IncWeakRef,
              ControlBlockBase.DecWeakRef] using hd)
      · rw [Bool.not_eq_true] at ha
        simp only [ha, hfl, incWeak_false, decWeak_false]
        have hbal := countP_set_one w.weaks i (nullWeakHandle false)
          (fun x => x.live && x.attached) hlt
        rw [hgeq] at hbal
        simp [pW_null, hl, ha, countW_def] at hbal
        refine inv_withLists w hw _ _ rfl ?_
          (flags_of_append (flags_of_set hw.weakFlags i _ rfl) _ rfl)
        rw [countP_append_one]
        simp [pW_eval, countW_def, ha]
        omega
    · rw [if_neg hl]
      exact hw

theorem inv_step_resetW (w : World) (i : Nat) (hw : WorldInv w) :
    WorldInv (w.step (Op.resetW i)) := by
  simp only [World.step]
  cases hg : w.weaks[i]? with
  | none => exact hw
  | some h =>
    dsimp only
    by_cases hl : h.live = true
    · rw [if_pos hl]
      have hfl : h.is_esft_ptr = false := hw.weakFlags h (mem_of_getElem?_eq hg)
      obtain ⟨hlt, hgeq⟩ := List.getElem?_eq_some.mp hg
      have hbal := countP_set_one w.weaks i (nullWeakHandle false)
        (fun x => x.live && x.attached) hlt
      rw [hgeq] at hbal
      by_cases ha : h.attached = true
      · obtain ⟨b, hcb, hpos, hwa⟩ := weak_attached_facts hw hg hl ha
        simp [pW_null, hl, ha, countW_def] at hbal
        simp only [ha, hfl]
        by_cases hfree : b.strong_ref_cnt = 0 ∧ liveWeakCount w = 1
        · obtain ⟨hs, hk⟩ := hfree
          have hdd : b.is_destroyed = true := hw.zeroDestroyed b hcb hs
          rw [decWeak_eq_free w b hcb hs (by omega)]
          refine inv_mk_none w hw _ _ _ ?_ ?_ ?_
            (flags_of_set hw.weakFlags i _ rfl)
          · dsimp only
            rw [countS_def]
            rw [← hw.strongAgrees b hcb]
            exact hs
          · dsimp only
            omega
          · exact hw.destroyedRuns b hcb hdd
        · rw [decWeak_eq_nofree w b hcb (by omega)]
          refine inv_mk_some w hw (bf_false_of_some hw hcb) b.DecWeakRef
            w.destructorRuns _ _ ?_ ?_ ?_ ?_ ?_ ?_
            (flags_of_set hw.weakFlags i _ rfl)
          · simp only [ControlBlockBase.DecWeakRef]
            rw [countS_def]
            exact hw.strongAgrees b hcb
          · simp only [ControlBlockBase.DecWeakRef]
            omega
          · simpa [ControlBlockBase.DecWeakRef] using hw.zeroDestroyed b hcb
          · simpa [ControlBlockBase.DecWeakRef] using hw.destroyedZero b hcb
          · intro hd
            exact hw.aliveRuns b hcb
              (by simpa [ControlBlockBase.DecWeakRef] using hd)
          · intro hd
            exact hw.destroyedRuns b hcb
              (by simpa [ControlBlockBase.DecWeakRef] using hd)
      · rw [Bool.not_eq_true] at ha
        simp [pW_null, hl, ha, countW_def] at hbal
        simp only [ha, hfl, decWeak_false]
        refine inv_withLists w hw _ _ rfl ?_
          (flags_of_set hw.weakFlags i _ rfl)
        omega
    · rw [if_neg hl]
      exact hw

theorem inv_step_destructW (w : World) (i : Nat) (hw : WorldInv w) :
    WorldInv (w.step (Op.destructW i)) := by
  simp only [World.step]
  cases hg : w.weaks[i]? with
  | none => exact hw
  | some h =>
    dsimp only
    by_cases hl : h.live = true
    · rw [if_pos hl]
      have hfl : h.is_esft_ptr = false := hw.weakFlags h (mem_of_getElem?_eq hg)
      obtain ⟨hlt, hgeq⟩ := List.getElem?_eq_some.mp hg
      have hbal := countP_set_one w.weaks i
        (⟨false, false, true, false⟩ : WeakHandle)
        (fun x => x.live && x.attached) hlt
      rw [hgeq] at hbal
      by_cases ha : h.attached = true
      · obtain ⟨b, hcb, hpos, hwa⟩ := weak_attached_facts hw hg hl ha
        simp [hl, ha, countW_def] at hbal
        simp only [ha, hfl]
        by_cases hfree : b.strong_ref_cnt = 0 ∧ liveWeakCount w = 1
        · obtain ⟨hs, hk⟩ := hfree
          have hdd : b.is_destroyed = true := hw.zeroDestroyed b hcb hs
          rw [decWeak_eq_free w b hcb hs (by omega)]
          refine inv_mk_none w hw _ _ _ ?_ ?_ ?_
            (flags_of_set hw.weakFlags i _ rfl)
          · dsimp only
            rw [countS_def]
            rw [← hw.strongAgrees b hcb]
            exact hs
          · dsimp only
            omega
          · exact hw.destroyedRuns b hcb hdd
        · rw [decWeak_eq_nofree w b hcb (by omega)]
          refine inv_mk_some w hw (bf_false_of_some hw hcb) b.DecWeakRef
            w.destructorRuns _ _ ?_ ?_ ?_ ?_ ?_ ?_
            (flags_of_set hw.weakFlags i _ rfl)
          · simp only [ControlBlockBase.DecWeakRef]
            rw [countS_def]
            exact hw.strongAgrees b hcb
          · simp only [ControlBlockBase.DecWeakRef]
            omega
          · simpa [ControlBlockBase.DecWeakRef] using hw.zeroDestroyed b hcb
          · simpa [ControlBlockBase.DecWeakRef] using hw.destroyedZero b hcb
          · intro hd
            exact hw.aliveRuns b hcb
              (by simpa [ControlBlockBase.DecWeakRef] using hd)
          · intro hd
            exact hw.destroyedRuns b hcb
              (by simpa [ControlBlockBase.DecWeakRef] using hd)
      · rw [Bool.not_eq_true] at ha
        simp [hl, ha, countW_def] at hbal
        simp only [ha, hfl, decWeak_false]
        refine inv_withLists w hw _ _ rfl ?_
          (flags_of_set hw.weakFlags i _ rfl)
        omega
    · rw [if_neg hl]
      exact hw

theorem inv_step_weakCopyAssign (w : World) (i j : Nat) (hw : WorldInv w) :
    WorldInv (w.step (Op.weakCopyAssign i j)) := by
  simp only [World.step]
  by_cases hij : i = j
  · rw [if_pos hij]
    exact hw
  · rw [if_neg hij]
    cases hgi : w.weaks[i]? with
    | none => exact hw
    | some hi =>
      cases hgj : w.weaks[j]? with
      | none => exact hw
      | some hj =>
        dsimp only
        by_cases hll : (hi.live && hj.live) = true
        · rw [if_pos hll]
          rw [Bool.and_eq_true] at hll
          obtain ⟨hl1, hl2⟩ := hll
          have hfl1 : hi.is_esft_ptr = false :=
            hw.weakFlags hi (mem_of_getElem?_eq hgi)
          obtain ⟨hlt1, hgeq1⟩ := List.getElem?_eq_some.mp hgi
          have hbal := countP_set_one w.weaks i
            (⟨true, hj.attached, hj.ptr_null, false⟩ : WeakHandle)
            (fun x => x.live && x.attached) hlt1
          rw [hgeq1] at hbal
          by_cases ha1 : hi.attached = true
          · obtain ⟨b, hcb, hpos, hwa⟩ := weak_attached_facts hw hgi hl1 ha1
            by_cases ha2 : hj.attached = true
            · have hcnt2 : 2 ≤ liveWeakCount w := by
                rw [← countW_def]
                exact two_le_countP hij hgi hgj (by simp [hl1, ha1])
                  (by simp [hl2, ha2])
              simp [hl1, ha1, ha2, countW_def] at hbal
              simp only [ha1, ha2, hfl1]
              rw [decWeak_eq_nofree w b hcb (by omega)]
              rw [incWeak_eq _ b.DecWeakRef rfl]
              refine inv_mk_some w hw (bf_false_of_some hw hcb)
                b.DecWeakRef.IncWeakRef w.destructorRuns _ _ ?_ ?_ ?_ ?_ ?_ ?_
                (flags_of_set hw.weakFlags i _ rfl)
              · simp only [ControlBlockBase.DecWeakRef,
                  ControlBlockBase.IncWeakRef]
                rw [countS_def]
                exact hw.strongAgrees b hcb
              · simp only [ControlBlockBase.DecWeakRef,
                  ControlBlockBase.IncWeakRef]
                omega
              · simpa [ControlBlockBase.DecWeakRef,
                  ControlBlockBase.IncWeakRef] using hw.zeroDestroyed b hcb
              · simpa [ControlBlockBase.DecWeakRef,
                  ControlBlockBase.IncWeakRef] using hw.destroyedZero b hcb
              · intro hd
                exact hw.aliveRuns b hcb
                  (by simpa [ControlBlockBase.DecWeakRef,
                    ControlBlockBase.IncWeakRef] using hd)
              · intro hd
                exact hw.destroyedRuns b hcb
                  (by simpa [ControlBlockBase.DecWeakRef,
                    ControlBlockBase.IncWeakRef] using hd)
            · rw [Bool.not_eq_true] at ha2
              simp [hl1, ha1, ha2, countW_def] at hbal
              simp only [ha1, ha2, hfl1, incWeak_false]
              by_cases hfree : b.strong_ref_cnt = 0 ∧ liveWeakCount w = 1
              · obtain ⟨hs, hk⟩ := hfree
                have hdd : b.is_destroyed = true := hw.zeroDestroyed b hcb hs
                rw [decWeak_eq_free w b hcb hs (by omega)]
                refine inv_mk_none w hw _ _ _ ?_ ?_ ?_
                  (flags_of_set hw.weakFlags i _ rfl)
                · dsimp only
                  rw [countS_def]
                  rw [← hw.strongAgrees b hcb]
                  exact hs
                · dsimp only
                  omega
                · exact hw.destroyedRuns b hcb hdd
              · rw [decWeak_eq_nofree w b hcb (by omega)]
                refine inv_mk_some w hw (bf_false_of_some hw hcb) b.DecWeakRef
                  w.destructorRuns _ _ ?_ ?_ ?_ ?_ ?_ ?_
                  (flags_of_set hw.weakFlags i _ rfl)
                · simp only [ControlBlockBase.DecWeakRef]
                  rw [countS_def]
                  exact hw.strongAgrees b hcb
                · simp only [ControlBlockBase.DecWeakRef]
                  omega
                · simpa [ControlBlockBase.DecWeakRef] using
                    hw.zeroDestroyed b hcb
                · simpa [ControlBlockBase.DecWeakRef] using
                    hw.destroyedZero b hcb
                · intro hd
                  exact hw.aliveRuns b hcb
                    (by simpa [ControlBlockBase.DecWeakRef] using hd)
                · intro hd
                  exact hw.destroyedRuns b hcb
                    (by simpa [ControlBlockBase.DecWeakRef] using hd)
          · rw [Bool.not_eq_true] at ha1
            by_cases ha2 : hj.attached = true
            · obtain ⟨b, hcb, hpos, hwa⟩ := weak_attached_facts hw hgj hl2 ha2
              simp [hl1, ha1, ha2, countW_def] at hbal
              simp only [ha1, ha2, hfl1, decWeak_false]
              rw [incWeak_eq w b hcb]
              refine inv_mk_some w hw (bf_false_of_some hw hcb) b.IncWeakRef
                w.destructorRuns _ _ ?_ ?_ ?_ ?_ ?_ ?_
                (flags_of_set hw.weakFlags i _ rfl)
              · simp only [ControlBlockBase.IncWeakRef]
                rw [countS_def]
                exact hw.strongAgrees b hcb
              · simp only [ControlBlockBase.IncWeakRef]
                omega
              · simpa [ControlBlockBase.IncWeakRef] using hw.zeroDestroyed b hcb
              · simpa [ControlBlockBase.IncWeakRef] using hw.destroyedZero b hcb
              · intro hd
                exact hw.aliveRuns b hcb
                  (by simpa [ControlBlockBase.IncWeakRef] using hd)
              · intro hd
                exact hw.destroyedRuns b hcb
                  (by simpa [ControlBlockBase.IncWeakRef] using hd)
            · rw [Bool.not_eq_true] at ha2
              simp [hl1, ha1, ha2, countW_def] at hbal
              simp only [ha1, ha2, hfl1, decWeak_false, incWeak_false]
              refine inv_withLists w hw _ _ rfl ?_
                (flags_of_set hw.weakFlags i _ rfl)
              omega
        · rw [if_neg hll]
          exact hw

theorem inv_step_weakMoveAssign (w : World) (i j : Nat) (hw : WorldInv w) :
    WorldInv (w.step (Op.weakMoveAssign i j)) := by
  simp only [World.step]
  by_cases hij : i = j
  · rw [if_pos hij]
    exact hw
  · rw [if_neg hij]
    cases hgi : w.weaks[i]? with
    | none => exact hw
    | some hi =>
      cases hgj : w.weaks[j]? with
      | none => exact hw
      | some hj =>
        dsimp only
        by_cases hll : (hi.live && hj.live) = true
        · rw [if_pos hll]
          rw [Bool.and_eq_true] at hll
          obtain ⟨hl1, hl2⟩ := hll
          have hfl1 : hi.is_esft_ptr = false :=
            hw.weakFlags hi (mem_of_getElem?_eq hgi)
          have hfl2 : hj.is_esft_ptr = false :=
            hw.weakFlags hj (mem_of_getElem?_eq hgj)
          obtain ⟨hlt1, hgeq1⟩ := List.getElem?_eq_some.mp hgi
          have hbal1 := countP_set_one w.weaks i
            (⟨true, hj.attached, hj.ptr_null, false⟩ : WeakHandle)
            (fun x => x.live && x.attached) hlt1
          rw [hgeq1] at hbal1
          have hgj2 : (w.weaks.set i
              (⟨true, hj.attached, hj.ptr_null, false⟩ : WeakHandle))[j]? =
              some hj := by
            rw [List.getElem?_set_ne hij]
            exact hgj
          obtain ⟨hlt2, hgeq2⟩ := List.getElem?_eq_some.mp hgj2
          have hbal2 := countP_set_one _ j (nullWeakHandle false)
            (fun x => x.live && x.attached) hlt2
          rw [hgeq2] at hbal2
          by_cases ha1 : hi.attached = true
          · obtain ⟨b, hcb, hpos, hwa⟩ := weak_attached_facts hw hgi hl1 ha1
            simp [pW_null, hl1, hl2, ha1, countW_def] at hbal1 hbal2
            simp only [ha1, hfl1, hfl2]
            by_cases hfree : b.strong_ref_cnt = 0 ∧ liveWeakCount w = 1
            · obtain ⟨hs, hk⟩ := hfree
              have ha2 : hj.attached = false := by
                by_cases ha2' : hj.attached = true
                · have : 2 ≤ liveWeakCount w := by
                    rw [← countW_def]
                    exact two_le_countP hij hgi hgj (by simp [hl1, ha1])
                      (by simp [hl2, ha2'])
                  omega
                · rw [Bool.not_eq_true] at ha2'
                  exact ha2'
              simp only [ha2] at hbal1 hbal2 ⊢
              simp at hbal1 hbal2
              have hdd : b.is_destroyed = true := hw.zeroDestroyed b hcb hs
              rw [decWeak_eq_free w b hcb hs (by omega)]
              refine inv_mk_none w hw _ _ _ ?_ ?_ ?_
                (flags_of_set (flags_of_set hw.weakFlags i _ rfl) j _ rfl)
              · dsimp only
                rw [countS_def]
                rw [← hw.strongAgrees b hcb]
                exact hs
              · dsimp only
                omega
              · exact hw.destroyedRuns b hcb hdd
            · rw [decWeak_eq_nofree w b hcb (by omega)]
              refine inv_mk_some w hw (bf_false_of_some hw hcb) b.DecWeakRef
                w.destructorRuns _ _ ?_ ?_ ?_ ?_ ?_ ?_
                (flags_of_set (flags_of_set hw.weakFlags i _ rfl) j _ rfl)
              · simp only [ControlBlockBase.DecWeakRef]
                rw [countS_def]
                exact hw.strongAgrees b hcb
              · simp only [ControlBlockBase.DecWeakRef]
                cases ha2 : hj.attached <;> simp [ha2] at hbal1 hbal2 ⊢ <;> omega
              · simpa [ControlBlockBase.DecWeakRef] using hw.zeroDestroyed b hcb
              · simpa [ControlBlockBase.DecWeakRef] using hw.destroyedZero b hcb
              · intro hd
                exact hw.aliveRuns b hcb
                  (by simpa [ControlBlockBase.DecWeakRef] using hd)
              · intro hd
                exact hw.destroyedRuns b hcb
                  (by simpa [ControlBlockBase.DecWeakRef] using hd)
          · rw [Bool.not_eq_true] at ha1
            simp [pW_null, hl1, hl2, ha1, countW_def] at hbal1 hbal2
            simp only [ha1, hfl1, hfl2, decWeak_false]
            refine inv_withLists w hw _ _ rfl ?_
              (flags_of_set (flags_of_set hw.weakFlags i _ rfl) j _ rfl)
            cases ha2 : hj.attached <;> simp [ha2] at hbal1 hbal2 ⊢ <;> omega
        · rw [if_neg hll]
          exact hw

theorem inv_step (w : World) (op : Op) (hw : WorldInv w) : WorldInv (w.step op) := by
  cases op with
  | newDefault => exact inv_step_newDefault w hw
  | newFromRaw p => exact inv_step_newFromRaw w p hw
  | copyCon i => exact inv_step_copyCon w i hw
  | moveCon i => exact inv_step_moveCon w i hw
  | copyAssign i j => exact inv_step_copyAssign w i j hw
  | moveAssign i j => exact inv_step_moveAssign w i j hw
  | resetS i => exact inv_step_resetS w i hw
  | destructS i => exact inv_step_destructS w i hw
  | swapS i j => exact inv_step_swapS w i j hw
  | aliasCon i p => exact inv_step_aliasCon w i p hw
  | weakNewDefault => exact inv_step_weakNewDefault w hw
  | weakFromShared i => exact inv_step_weakFromShared w i hw
  | weakCopyCon i => exact inv_step_weakCopyCon w i hw
  | weakMoveCon i => exact inv_step_weakMoveCon w i hw
  | weakCopyAssign i j => exact inv_step_weakCopyAssign w i j hw
  | weakMoveAssign i j => exact inv_step_weakMoveAssign w i j hw
  | resetW i => exact inv_step_resetW w i hw
  | destructW i => exact inv_step_destructW w i hw
  | lockW i => exact inv_step_lockW w i hw

theorem inv_init : WorldInv World.initWorld := by
  refine ⟨rfl, ?_, ?_, ?_, ?_, ?_, ?_, ?_, ?_, ?_, ?_, ?_, ?_⟩ <;>
    intro x <;> simp [World.initWorld, liveStrongCount, liveWeakCount]

theorem inv_reachable (w : World) (h : Reachable w) : WorldInv w := by
  induction h with
  | init => exact inv_init
  | step w op _ ih => exact inv_step w op ih

theorem forall_mem_set {α : Type} {L : List α} {P : α → Prop}
    (hA : ∀ x ∈ L, P x) (i : Nat) (a : α) (ha : P a) : ∀ x ∈ L.set i a, P x := by
  intro x hx
  rcases List.mem_or_eq_of_mem_set hx with hx | rfl
  · exact hA x hx
  · exact ha

theorem forall_mem_append_one {α : Type} {L : List α} {P : α → Prop}
    (hA : ∀ x ∈ L, P x) (a : α) (ha : P a) : ∀ x ∈ L ++ [a], P x := by
  intro x hx
  simp only [List.mem_append, List.mem_singleton] at hx
  rcases hx with hx | rfl
  · exact hA x hx
  · exact ha

theorem ptrInv_step (w : World) (op : Op) (hp : PtrInv w) (hwf : WFOp w op) :
    PtrInv (w.step op) := by
  cases op with
  | newDefault =>
    exact ⟨forall_mem_append_one hp.strongPtr nullStrongHandle (fun _ => rfl),
      hp.weakPtr⟩
  | newFromRaw p =>
    dsimp only [WFOp] at hwf
    subst hwf
    simp only [World.step]
    by_cases hcond : (w.cb.isNone && !w.blockFreed) = true
    · rw [if_pos hcond]
      refine ⟨?_, ?_⟩
      · simp only [incStrong_strongs]
        exact forall_mem_append_one hp.strongPtr ⟨true, true, false⟩
          (fun _ => rfl)
      · simp only [incStrong_weaks]
        exact hp.weakPtr
    · rw [if_neg hcond]
      exact hp
  | copyCon i =>
    simp only [World.step]
    cases hg : w.strongs[i]? with
    | none => exact hp
    | some h =>
      dsimp only
      by_cases hl : h.live = true
      · rw [if_pos hl]
        refine ⟨?_, ?_⟩
        · simp only [incStrong_strongs]
          exact forall_mem_append_one hp.strongPtr
            ⟨true, h.attached, h.ptr_null⟩
            (fun _ => hp.strongPtr h (mem_of_getElem?_eq hg) hl)
        · simp only [incStrong_weaks]
          exact hp.weakPtr
      · rw [if_neg hl]
        exact hp
  | moveCon i =>
    simp only [World.step]
    cases hg : w.strongs[i]? with
    | none => exact hp
    | some h =>
      dsimp only
      by_cases hl : h.live = true
      · rw [if_pos hl]
        refine ⟨?_, hp.weakPtr⟩
        exact forall_mem_append_one
          (forall_mem_set hp.strongPtr i nullStrongHandle (fun _ => rfl))
          ⟨true, h.attached, h.ptr_null⟩
          (fun _ => hp.strongPtr h (mem_of_getElem?_eq hg) hl)
      · rw [if_neg hl]
        exact hp
  | copyAssign i j =>
    simp only [World.step]
    by_cases hij : i = j
    · rw [if_pos hij]
      exact hp
    · rw [if_neg hij]
      cases hgi : w.strongs[i]? with
      | none => exact hp
      | some hi =>
        cases hgj : w.strongs[j]? with
        | none => exact hp
        | some hj =>
          dsimp only
          by_cases hll : (hi.live && hj.live) = true
          · rw [if_pos hll]
            rw [Bool.and_eq_true] at hll
            refine ⟨?_, ?_⟩
            · simp only [incStrong_strongs, decStrong_strongs]
              exact forall_mem_set hp.strongPtr i
                ⟨true, hj.attached, hj.ptr_null⟩
                (fun _ => hp.strongPtr hj (mem_of_getElem?_eq hgj) hll.2)
            · simp only [incStrong_weaks, decStrong_weaks]
              exact hp.weakPtr
          · rw [if_neg hll]
            exact hp
  | moveAssign i j =>
    simp only [World.step]
    by_cases hij : i = j
    · rw [if_pos hij]
      exact hp
    · rw [if_neg hij]
      cases hgi : w.strongs[i]? with
      | none => exact hp
      | some hi =>
        cases hgj : w.strongs[j]? with
        | none => exact hp
        | some hj =>
          dsimp only
          by_cases hll : (hi.live && hj.live) = true
          · rw [if_pos hll]
            rw [Bool.and_eq_true] at hll
            refine ⟨?_, ?_⟩
            · simp only [decStrong_strongs]
              exact forall_mem_set
                (forall_mem_set hp.strongPtr i
                  ⟨true, hj.attached, hj.ptr_null⟩
                  (fun _ => hp.strongPtr hj (mem_of_getElem?_eq hgj) hll.2))
                j nullStrongHandle (fun _ => rfl)
            · simp only [decStrong_weaks]
              exact hp.weakPtr
          · rw [if_neg hll]
            exact hp
  | resetS i =>
    simp only [World.step]
    cases hg : w.strongs[i]? with
    | none => exact hp
    | some h =>
      dsimp only
      by_cases hl : h.live = true
      · rw [if_pos hl]
        refine ⟨?_, ?_⟩
        · simp only [decStrong_strongs]
          exact forall_mem_set hp.strongPtr i nullStrongHandle (fun _ => rfl)
        · simp only [decStrong_weaks]
          exact hp.weakPtr
      · rw [if_neg hl]
        exact hp
  | destructS i =>
    simp only [World.step]
    cases hg : w.strongs[i]? with
    | none => exact hp
    | some h =>
      dsimp only
      by_cases hl : h.live = true
      · rw [if_pos hl]
        refine ⟨?_, ?_⟩
        · simp only [decStrong_strongs]
          exact forall_mem_set hp.strongPtr i ⟨false, false, true⟩
            (fun hx => by simp at hx)
        · simp only [decStrong_weaks]
          exact hp.weakPtr
      · rw [if_neg hl]
        exact hp
  | swapS i j =>
    simp only [World.step]
    cases hgi : w.strongs[i]? with
    | none => exact hp
    | some hi =>
      cases hgj : w.strongs[j]? with
      | none => exact hp
      | some hj =>
        dsimp only
        by_cases hll : (hi.live && hj.live) = true
        · rw [if_pos hll]
          rw [Bool.and_eq_true] at hll
          refine ⟨?_, hp.weakPtr⟩
          exact forall_mem_set
            (forall_mem_set hp.strongPtr i ⟨true, hj.attached, hj.ptr_null⟩
              (fun _ => hp.strongPtr hj (mem_of_getElem?_eq hgj) hll.2))
            j ⟨true, hi.attached, hi.ptr_null⟩
            (fun _ => hp.strongPtr hi (mem_of_getElem?_eq hgi) hll.1)
        · rw [if_neg hll]
          exact hp
  | aliasCon i p =>
    simp only [World.step]
    cases hg : w.strongs[i]? with
    | none => exact hp
    | some h =>
      dsimp only [WFOp] at hwf
      rw [hg] at hwf
      dsimp only at hwf
      subst hwf
      dsimp only
      by_cases hl : h.live = true
      · rw [if_pos hl]
        refine ⟨?_, ?_⟩
        · simp only [incStrong_strongs]
          exact forall_mem_append_one hp.strongPtr
            ⟨true, h.attached, !h.attached⟩ (fun _ => rfl)
        · simp only [incStrong_weaks]
          exact hp.weakPtr
      · rw [if_neg hl]
        exact hp
  | weakNewDefault =>
    exact ⟨hp.strongPtr,
      forall_mem_append_one hp.weakPtr (nullWeakHandle false) (fun _ => rfl)⟩
  | weakFromShared i =>
    simp only [World.step]
    cases hg : w.strongs[i]? with
    | none => exact hp
    | some h =>
      dsimp only
      by_cases hl : h.live = true
      · rw [if_pos hl]
        refine ⟨?_, ?_⟩
        · simp only [incWeak_strongs]
          exact hp.strongPtr
        · simp only [incWeak_weaks]
          exact forall_mem_append_one hp.weakPtr
            ⟨true, h.attached, h.ptr_null, false⟩
            (fun _ => hp.strongPtr h (mem_of_getElem?_eq hg) hl)
      · rw [if_neg hl]
        exact hp
  | weakCopyCon i =>
    simp only [World.step]
    cases hg : w.weaks[i]? with
    | none => exact hp
    | some h =>
      dsimp only
      by_cases hl : h.live = true
      · rw [if_pos hl]
        refine ⟨?_, ?_⟩
        · simp only [incWeak_strongs]
          exact hp.strongPtr
        · simp only [incWeak_weaks]
          exact forall_mem_append_one hp.weakPtr
            ⟨true, h.attached, h.ptr_null, false⟩
            (fun _ => hp.weakPtr h (mem_of_getElem?_eq hg) hl)
      · rw [if_neg hl]
        exact hp
  | weakMoveCon i =>
    simp only [World.step]
    cases hg : w.weaks[i]? with
    | none => exact hp
    | some h =>
      dsimp only
      by_cases hl : h.live = true
      · rw [if_pos hl]
        refine ⟨?_, ?_⟩
        · simp only [decWeak_strongs, incWeak_strongs]
          exact hp.strongPtr
        · simp only [decWeak_weaks, incWeak_weaks]
          exact forall_mem_append_one
            (forall_mem_set hp.weakPtr i (nullWeakHandle h.is_esft_ptr)
              (fun _ => rfl))
            ⟨true, h.attached, h.ptr_null, false⟩
            (fun _ => hp.weakPtr h (mem_of_getElem?_eq hg) hl)
      · rw [if_neg hl]
        exact hp
  | weakCopyAssign i j =>
    simp only [World.step]
    by_cases hij : i = j
    · rw [if_pos hij]
      exact hp
    · rw [if_neg hij]
      cases hgi : w.weaks[i]? with
      | none => exact hp
      | some hi =>
        cases hgj : w.weaks[j]? with
        | none => exact hp
        | some hj =>
          dsimp only
          by_cases hll : (hi.live && hj.live) = true
          · rw [if_pos hll]
            rw [Bool.and_eq_true] at hll
            refine ⟨?_, ?_⟩
            · simp only [incWeak_strongs, decWeak_strongs]
              exact hp.strongPtr
            · simp only [incWeak_weaks, decWeak_weaks]
              exact forall_mem_set hp.weakPtr i
                ⟨true, hj.attached, hj.ptr_null, hi.is_esft_ptr⟩
                (fun _ => hp.weakPtr hj (mem_of_getElem?_eq hgj) hll.2)
          · rw [if_neg hll]
            exact hp
  | weakMoveAssign i j =>
    simp only [World.step]
    by_cases hij : i = j
    · rw [if_pos hij]
      exact hp
    · rw [if_neg hij]
      cases hgi : w.weaks[i]? with
      | none => exact hp
      | some hi =>
        cases hgj : w.weaks[j]? with
        | none => exact hp
        | some hj =>
          dsimp only
          by_cases hll : (hi.live && hj.live) = true
          · rw [if_pos hll]
            rw [Bool.and_eq_true] at hll
            refine ⟨?_, ?_⟩
            · simp only [decWeak_strongs]
              exact hp.strongPtr
            · simp only [decWeak_weaks]
              exact forall_mem_set
                (forall_mem_set hp.weakPtr i
                  ⟨true, hj.attached, hj.ptr_null, hi.is_esft_ptr⟩
                  (fun _ => hp.weakPtr hj (mem_of_getElem?_eq hgj) hll.2))
                j (nullWeakHandle hj.is_esft_ptr) (fun _ => rfl)
          · rw [if_neg hll]
            exact hp
  | resetW i =>
    simp only [World.step]
    cases hg : w.weaks[i]? with
    | none => exact hp
    | some h =>
      dsimp only
      by_cases hl : h.live = true
      · rw [if_pos hl]
        refine ⟨?_, ?_⟩
        · simp only [decWeak_strongs]
          exact hp.strongPtr
        · simp only [decWeak_weaks]
          exact forall_mem_set hp.weakPtr i (nullWeakHandle h.is_esft_ptr)
            (fun _ => rfl)
      · rw [if_neg hl]
        exact hp
  | destructW i =>
    simp only [World.step]
    cases hg : w.weaks[i]? with
    | none => exact hp
    | some h =>
      dsimp only
      by_cases hl : h.live = true
      · rw [if_pos hl]
        refine ⟨?_, ?_⟩
        · simp only [decWeak_strongs]
          exact hp.strongPtr
        · simp only [decWeak_weaks]
          exact forall_mem_set hp.weakPtr i ⟨false, false, true, h.is_esft_ptr⟩
            (fun hx => by simp at hx)
      · rw [if_neg hl]
        exact hp
  | lockW i =>
    simp only [World.step]
    cases hg : w.weaks[i]? with
    | none => exact hp
    | some h =>
      dsimp only
      by_cases hl : h.live = true
      · rw [if_pos hl]
        by_cases ha : h.attached = true
        · rw [if_pos ha]
          cases hcb : w.cb with
          | none => exact ⟨hp.strongPtr, hp.weakPtr⟩
          | some b =>
            dsimp only
            by_cases hd : b.IsDestroyed = true
            · rw [if_pos hd]
              exact ⟨forall_mem_append_one hp.strongPtr nullStrongHandle
                (fun _ => rfl), hp.weakPtr⟩
            · rw [if_neg hd]
              refine ⟨?_, ?_⟩
              · simp only [incStrong_strongs]
                refine forall_mem_append_one hp.strongPtr
                  ⟨true, true, h.ptr_null⟩ (fun _ => ?_)
                have := hp.weakPtr h (mem_of_getElem?_eq hg) hl
                rw [ha] at this
                simpa using this
              · simp only [incStrong_weaks]
                exact hp.weakPtr
        · rw [if_neg ha]
          exact ⟨forall_mem_append_one hp.strongPtr nullStrongHandle
            (fun _ => rfl), hp.weakPtr⟩
      · rw [if_neg hl]
        exact hp

theorem ptrInv_init : PtrInv World.initWorld := by
  refine ⟨?_, ?_⟩ <;> intro x hx <;> simp [World.initWorld] at hx

theorem ptrInv_reachableWF (w : World) (h : ReachableWF w) : PtrInv w := by
  induction h with
  | init => exact ptrInv_init
  | step w op _ hwf ih => exact ptrInv_step w op ih hwf

/-- C1: for every sequence of StrongHandle constructions, copies, moves,
resets and destructions (and any other API operations) sharing one control
block, UseCount() observed on any live handle equals the number of live
StrongHandles currently referencing that block, and UseCount() on a null
handle is 0. -/
theorem useCount_counts_live_strong_handles (w : World) (hr : Reachable w)
    (i : Nat) (h : StrongHandle) (hg : w.strongs[i]? = some h)
    (hl : h.live = true) :
    w.useCountS i = (if h.attached = true then liveStrongCount w else 0) := by
  have hw := inv_reachable w hr
  unfold World.useCountS
  rw [hg]
  dsimp only
  by_cases ha : h.attached = true
  · rw [if_pos ha, if_pos ha]
    obtain ⟨b, hcb, _, _, hsa⟩ := strong_attached_facts hw hg hl ha
    rw [hcb]
    exact hsa
  · rw [if_neg ha, if_neg ha]

theorem useCount_counts_live_strong_handles_witness :
    demoTwo.useCountS 0 = 2 := by
  have hr : Reachable demoTwo :=
    Reachable.step demoAdopt (Op.copyCon 0)
      (Reachable.step World.initWorld (Op.newFromRaw false) Reachable.init)
  have := useCount_counts_live_strong_handles demoTwo hr 0 ⟨true, true, false⟩
    (by decide) rfl
  rw [this]
  decide

/-- C7: self-assignment of a SharedPtr (h = h) is a no-op: the world is
unchanged, so UseCount() is unchanged and the managed object's destructor
does not run. -/
theorem self_assignment_noop (w : World) (i : Nat) :
    w.step (Op.copyAssign i i) = w ∧
    (∀ j, (w.step (Op.copyAssign i i)).useCountS j = w.useCountS j) ∧
    (w.step (Op.copyAssign i i)).destructorRuns = w.destructorRuns := by
  have hstep : w.step (Op.copyAssign i i) = w := by
    simp [World.step]
  exact ⟨hstep, fun j => by rw [hstep], by rw [hstep]⟩

/-- C9: adopting a null raw pointer, SharedPtr((T*)nullptr), still allocates
a Detached control block, so the handle reports UseCount() == 1 while
converting to boolean false, unlike a default- or nullptr-constructed handle
whose UseCount() is 0. -/
theorem null_adoption_usecount_one_bool_false :
    demoNullAdopt.useCountS 0 = 1 ∧ demoNullAdopt.boolConv 0 = false ∧
    demoDefault.useCountS 0 = 0 ∧ demoDefault.boolConv 0 = false := by
  decide

/-- C3: constructing a SharedPtr from a WeakPtr whose managed object is
destroyed throws BadWeakPtr and changes no counter; otherwise the promotion
increments the strong count by exactly one and the handle adopts the
WeakPtr's control block. -/
theorem promotion_from_weak_behavior (b : ControlBlockBase) :
    (b.is_destroyed = true →
      SharedPtr.fromWeakPtr (some b) =
        ⟨PromoteOutcome.badWeakRef, some b, false⟩) ∧
    (b.is_destroyed = false →
      SharedPtr.fromWeakPtr (some b) =
        ⟨PromoteOutcome.ok, some b.IncStrongRef, true⟩ ∧
      b.IncStrongRef.strong_ref_cnt = b.strong_ref_cnt + 1 ∧
      b.IncStrongRef.weak_ref_cnt = b.weak_ref_cnt) := by
  constructor
  · intro hd
    simp [SharedPtr.fromWeakPtr, ControlBlockBase.IsDestroyed, hd]
  · intro hd
    simp [SharedPtr.fromWeakPtr, ControlBlockBase.IsDestroyed, hd,
      ControlBlockBase.IncStrongRef]

theorem promotion_from_weak_behavior_witness :
    SharedPtr.fromWeakPtr (some ⟨2, 1, true⟩) =
      ⟨PromoteOutcome.badWeakRef, some ⟨2, 1, true⟩, false⟩ :=
  (promotion_from_weak_behavior ⟨2, 1, true⟩).1 rfl

/-- C5 counterexample: calling SharedFromThis() on an object never wrapped by
any SharedPtr (its stored weak_this_ has a null control block) dereferences
the null control-block pointer — undefined behavior — rather than raising
the bad-weak-reference error the claim promises. -/
theorem sharedFromThis_never_wrapped_is_nullderef :
    (EnableSharedFromThis.SharedFromThis none).outcome =
      PromoteOutcome.nullDeref ∧
    PromoteOutcome.nullDeref ≠ PromoteOutcome.badWeakRef := by
  decide

/-- C5 amended: SharedFromThis() on a never-wrapped object dereferences a
null control-block pointer (undefined behavior, a precondition violation),
not the bad-weak-reference error; the bad-weak-reference error is raised,
with no counter change, exactly when the stored self-weak-handle references
a block whose managed object has been destroyed; when the object is alive
the promotion succeeds. -/
theorem sharedFromThis_nullderef_and_badweak :
    (EnableSharedFromThis.SharedFromThis none).outcome =
      PromoteOutcome.nullDeref ∧
    (∀ b : ControlBlockBase, b.is_destroyed = true →
      EnableSharedFromThis.SharedFromThis (some b) =
        ⟨PromoteOutcome.badWeakRef, some b, false⟩) ∧
    (∀ b : ControlBlockBase, b.is_destroyed = false →
      (EnableSharedFromThis.SharedFromThis (some b)).outcome =
        PromoteOutcome.ok) := by
  refine ⟨rfl, ?_, ?_⟩ <;> intro b hd <;>
    simp [EnableSharedFromThis.SharedFromThis, SharedPtr.fromWeakPtr,
      ControlBlockBase.IsDestroyed, hd]

theorem sharedFromThis_nullderef_and_badweak_witness :
    EnableSharedFromThis.SharedFromThis (some ⟨0, 1, true⟩) =
      ⟨PromoteOutcome.badWeakRef, some ⟨0, 1, true⟩, false⟩ :=
  sharedFromThis_nullderef_and_badweak.2.1 ⟨0, 1, true⟩ rfl

/-- C6 counterexample: the src/shared variant's DefaultBlock::Destroy has no
is_destroyed guard; calling it a second time executes `delete deletem_ptr`
again (the ghost destructor counter advances twice), so it is not
idempotent. -/
theorem sharedVariant_destroy_not_idempotent :
    SharedVariant.DefaultBlock.Destroy
        (SharedVariant.DefaultBlock.Destroy ⟨1, false, 0⟩) ≠
      SharedVariant.DefaultBlock.Destroy ⟨1, false, 0⟩ := by
  decide

/-- C8 counterexample: the handle produced by adopting a null raw pointer
(SharedPtr((T*)nullptr)) stores a null value pointer while holding a
non-null control block, so "value_ptr == null iff control_block == null"
fails for the raw-pointer-adoption construction form. -/
theorem null_adoption_breaks_ptr_block_iff :
    demoNullAdopt.strongs[0]? = some ⟨true, true, true⟩ ∧
    ¬(((⟨true, true, true⟩ : StrongHandle).ptr_null = true) ↔
      ((⟨true, true, true⟩ : StrongHandle).attached = false)) := by
  constructor
  · rfl
  · decide

/-- C10: the is_esft_ptr_ flag is set only through MakeEsftPtr (reached via
InitWeakThis on the embedded weak_this_); WeakPtr copy and move construction
leave the new handle's flag at its default false, assignments never write
the target's flag, WeakFromThis returns an unflagged copy, a flagged handle
never deletes the control block on its own decrement, and an unflagged
handle deletes it exactly per CanDeleteControlBlock; in the machine every
reachable WeakPtr is unflagged. -/
theorem esft_flag_not_propagated :
    (∀ o : WeakPtrState, o.copyCon.is_esft_ptr = false) ∧
    (∀ o : WeakPtrState, o.moveCon.is_esft_ptr = false) ∧
    (∀ t s : WeakPtrState, (t.copyAssign s).is_esft_ptr = t.is_esft_ptr) ∧
    (∀ t s : WeakPtrState, (t.moveAssign s).is_esft_ptr = t.is_esft_ptr) ∧
    (∀ (t : WeakPtrState) (hb pn : Bool),
      (SharedPtr.InitWeakThis t hb pn).is_esft_ptr = true) ∧
    (∀ t : WeakPtrState, (EnableSharedFromThis.WeakFromThis t).is_esft_ptr = false) ∧
    (∀ b : ControlBlockBase, (WeakPtr.DecreaseWeakCounter true b).2 = false) ∧
    (∀ b : ControlBlockBase, (WeakPtr.DecreaseWeakCounter false b).2 =
      b.DecWeakRef.CanDeleteControlBlock) ∧
    (∀ w : World, Reachable w → ∀ h ∈ w.weaks, h.is_esft_ptr = false) := by
  refine ⟨fun _ => rfl, fun _ => rfl, fun _ _ => rfl, fun _ _ => rfl,
    fun _ _ _ => rfl, fun _ => rfl, fun _ => rfl, ?_, ?_⟩
  · intro b
    simp [WeakPtr.DecreaseWeakCounter]
  · intro w hr
    exact (inv_reachable w hr).weakFlags

theorem esft_flag_not_propagated_witness :
    (⟨true, true, false, false⟩ : WeakHandle).is_esft_ptr = false := by
  have hr : Reachable demoWeak :=
    Reachable.step demoAdopt (Op.weakFromShared 0)
      (Reachable.step World.initWorld (Op.newFromRaw false) Reachable.init)
  exact esft_flag_not_propagated.2.2.2.2.2.2.2.2 demoWeak hr
    ⟨true, true, false, false⟩ (by decide)

/-- C2: when a WeakPtr is destroyed or Reset(), it decrements the weak count
and frees the control block exactly when the combined strong+weak count has
reached zero and the managed object has already been destroyed; it never
frees the block while the object is undestroyed.  Stated for every reachable
machine state (src/shared-from-this) and for the src/weak variant's
DecreaseWeakCounter under that variant's reachability invariant. -/
theorem weak_release_frees_iff (w : World) (hr : Reachable w) (i : Nat)
    (h : WeakHandle) (hg : w.weaks[i]? = some h) (hl : h.live = true)
    (ha : h.attached = true) (b : ControlBlockBase) (hcb : w.cb = some b) :
    C2Concl w i b ∧ C2Variant := by
  have hw := inv_reachable w hr
  have hfl : h.is_esft_ptr = false := hw.weakFlags h (mem_of_getElem?_eq hg)
  have hpos : 1 ≤ liveWeakCount w :=
    countP_pos_of_getElem? hg (by simp [hl, ha])
  have hwa := hw.weakAgrees b hcb
  have hbf := bf_false_of_some hw hcb
  constructor
  · by_cases hfree : b.strong_ref_cnt = 0 ∧ liveWeakCount w = 1
    · obtain ⟨hs, hk⟩ := hfree
      have hdd : b.is_destroyed = true := hw.zeroDestroyed b hcb hs
      have hred1 : w.step (Op.resetW i) =
          { w with
            cb := none,
            blockFreed := true,
            weaks := w.weaks.set i (nullWeakHandle false) } := by
        simp only [World.step, hg]
        rw [if_pos hl]
        simp only [ha, hfl]
        rw [decWeak_eq_free w b hcb hs (by omega)]
      have hred2 : w.step (Op.destructW i) =
          { w with
            cb := none,
            blockFreed := true,
            weaks := w.weaks.set i ⟨false, false, true, false⟩ } := by
        simp only [World.step, hg]
        rw [if_pos hl]
        simp only [ha, hfl]
        rw [decWeak_eq_free w b hcb hs (by omega)]
      refine ⟨?_, ?_, ?_, ?_, ?_, ?_⟩
      · intro b' hb'
        rw [hred1] at hb'
        simp at hb'
      · rw [hred1]
        dsimp only
        constructor
        · intro _
          exact ⟨by omega, hdd⟩
        · intro _
          rfl
      · intro hnd
        rw [hdd] at hnd
        simp at hnd
      · intro b' hb'
        rw [hred2] at hb'
        simp at hb'
      · rw [hred2]
        dsimp only
        constructor
        · intro _
          exact ⟨by omega, hdd⟩
        · intro _
          rfl
      · intro hnd
        rw [hdd] at hnd
        simp at hnd
    · have hcond : b.strong_ref_cnt + (b.weak_ref_cnt - 1) ≠ 0 := by omega
      have hred1 : w.step (Op.resetW i) =
          { w with
            cb := some b.DecWeakRef,
            weaks := w.weaks.set i (nullWeakHandle false) } := by
        simp only [World.step, hg]
        rw [if_pos hl]
        simp only [ha, hfl]
        rw [decWeak_eq_nofree w b hcb hcond]
      have hred2 : w.step (Op.destructW i) =
          { w with
            cb := some b.DecWeakRef,
            weaks := w.weaks.set i ⟨false, false, true, false⟩ } := by
        simp only [World.step, hg]
        rw [if_pos hl]
        simp only [ha, hfl]
        rw [decWeak_eq_nofree w b hcb hcond]
      refine ⟨?_, ?_, ?_, ?_, ?_, ?_⟩
      · intro b' hb'
        rw [hred1] at hb'
        dsimp only at hb'
        simp only [Option.some.injEq] at hb'
        subst hb'
        exact ⟨rfl, rfl⟩
      · rw [hred1]
        dsimp only
        constructor
        · intro hf
          rw [hbf] at hf
          simp at hf
        · intro hc
          exfalso
          have hz := hw.destroyedZero b hcb hc.2
          omega
      · intro _
        rw [hred1]
        exact hbf
      · intro b' hb'
        rw [hred2] at hb'
        dsimp only at hb'
        simp only [Option.some.injEq] at hb'
        subst hb'
        exact ⟨rfl, rfl⟩
      · rw [hred2]
        dsimp only
        constructor
        · intro hf
          rw [hbf] at hf
          simp at hf
        · intro hc
          exfalso
          have hz := hw.destroyedZero b hcb hc.2
          omega
      · intro _
        rw [hred2]
        exact hbf
  · intro b2 hw1 hzd
    refine ⟨rfl, rfl, ?_⟩
    simp only [WeakVariant.DecreaseWeakCounter, ControlBlockBase.GetAllCounter,
      ControlBlockBase.DecWeakRef, beq_iff_eq]
    constructor
    · intro hc
      exact ⟨hc, hzd (by omega)⟩
    · intro hc
      exact hc.1

theorem weak_release_frees_iff_witness :
    C2Concl demoWeak 0 ⟨1, 1, false⟩ ∧ C2Variant := by
  have hr : Reachable demoWeak :=
    Reachable.step demoAdopt (Op.weakFromShared 0)
      (Reachable.step World.initWorld (Op.newFromRaw false) Reachable.init)
  exact weak_release_frees_iff demoWeak hr 0 ⟨true, true, false, false⟩
    (by decide) rfl rfl ⟨1, 1, false⟩ (by decide)

/-- C4: Lock() on a WeakPtr whose object is still alive returns a SharedPtr
sharing the same control block with the strong count incremented by exactly
one; Lock() on an expired WeakPtr (null block or destroyed object) returns a
null SharedPtr and leaves every counter unchanged, never incrementing the
strong count of a destroyed object.  Stated for the machine and for the
src/weak variant's Lock. -/
theorem lock_behavior (w : World) (hr : Reachable w) (i : Nat)
    (h : WeakHandle) (hg : w.weaks[i]? = some h) (hl : h.live = true) :
    C4Concl w i h ∧ C4Variant := by
  constructor
  · constructor
    · intro ha b hcb
      constructor
      · intro hnd
        refine ⟨?_, rfl, rfl⟩
        simp only [World.step, hg]
        rw [if_pos hl, if_pos ha, hcb]
        dsimp only
        rw [if_neg (by simp [ControlBlockBase.IsDestroyed, hnd])]
        rw [incStrong_eq w b hcb]
      · intro hd
        simp only [World.step, hg]
        rw [if_pos hl, if_pos ha, hcb]
        dsimp only
        rw [if_pos (by simp [ControlBlockBase.IsDestroyed, hd])]
    · intro ha
      simp only [World.step, hg]
      rw [if_pos hl, if_neg (by simp [ha])]
  · refine ⟨?_, ?_, rfl⟩ <;> intro b hd <;>
      simp [WeakVariant.Lock, WeakVariant.SharedPtrFromBlock,
        ControlBlockBase.IsDestroyed, hd, ControlBlockBase.IncStrongRef]

theorem lock_behavior_witness :
    C4Concl demoWeak 0 ⟨true, true, false, false⟩ ∧ C4Variant := by
  have hr : Reachable demoWeak :=
    Reachable.step demoAdopt (Op.weakFromShared 0)
      (Reachable.step World.initWorld (Op.newFromRaw false) Reachable.init)
  exact lock_behavior demoWeak hr 0 ⟨true, true, false, false⟩ (by decide) rfl

/-- C6 amended: Destroy() is idempotent for the shared-from-this variant's
DefaultBlock and InlineBlock (guarded by is_destroyed); the plain src/shared
variant's DefaultBlock::Destroy is not idempotent (a second call re-deletes
the managed pointer), but in the machine the managed object's destructor
runs at most once on every reachable state, and destroying the last
SharedPtr runs it exactly once — even while WeakPtrs remain alive, since
weak-side operations never touch the destruction flag. -/
theorem destroy_idempotent_and_destructor_once :
    (∀ s : DefaultBlock, s.Destroy.Destroy = s.Destroy) ∧
    (∀ s : InlineBlock, s.Destroy.Destroy = s.Destroy) ∧
    (∀ s : SharedVariant.DefaultBlock, s.deletem_null = false →
      s.Destroy.Destroy.destructorRuns = s.destructorRuns + 2) ∧
    (∀ w : World, Reachable w → w.destructorRuns ≤ 1) ∧
    (∀ (w : World), Reachable w → ∀ (i : Nat) (h : StrongHandle),
      w.strongs[i]? = some h → h.live = true → h.attached = true →
      liveStrongCount w = 1 → w.deletem_null = false →
      (w.step (Op.resetS i)).destructorRuns = 1) := by
  refine ⟨?_, ?_, ?_, ?_, ?_⟩
  · intro s
    by_cases hd : s.base.is_destroyed = true <;>
      simp [DefaultBlock.Destroy, hd]
  · intro s
    by_cases hd : s.base.is_destroyed = true <;>
      simp [InlineBlock.Destroy, hd]
  · intro s hdn
    simp [SharedVariant.DefaultBlock.Destroy, hdn]
  · intro w hr
    have hw := inv_reachable w hr
    cases hc : w.cb with
    | none =>
      by_cases hbf : w.blockFreed = true
      · rw [hw.freedRuns hbf]
        split <;> omega
      · rw [hw.notFreedRuns (by simpa using hbf) hc]
        omega
    | some b =>
      by_cases hd : b.is_destroyed = true
      · rw [hw.destroyedRuns b hc hd]
        split <;> omega
      · rw [hw.aliveRuns b hc (by simpa using hd)]
        omega
  · intro w hr i h hg hl ha hone hdn
    have hw := inv_reachable w hr
    obtain ⟨b, hcb, hpos, hnd, hsa⟩ := strong_attached_facts hw hg hl ha
    have hr0 : w.destructorRuns = 0 := hw.aliveRuns b hcb hnd
    simp only [World.step, hg]
    rw [if_pos hl]
    simp only [ha]
    by_cases hwk : liveWeakCount w = 0
    · rw [decStrong_eq_free w b hcb (by omega) hnd
        (by rw [hw.weakAgrees b hcb]; exact hwk)]
      dsimp only
      rw [hr0, hdn]
      simp
    · rw [decStrong_eq_destroy w b hcb (by omega) hnd
        (by rw [hw.weakAgrees b hcb]; exact hwk)]
      dsimp only
      rw [hr0, hdn]
      simp

theorem destroy_idempotent_and_destructor_once_witness :
    (demoAdopt.step (Op.resetS 0)).destructorRuns = 1 := by
  have hr : Reachable demoAdopt :=
    Reachable.step World.initWorld (Op.newFromRaw false) Reachable.init
  exact destroy_idempotent_and_destructor_once.2.2.2.2 demoAdopt hr 0
    ⟨true, true, false⟩ (by decide) rfl rfl (by decide) rfl

/-- C8 amended: provided raw-pointer adoption is given a non-null pointer
and the aliasing constructor is given a pointer that is null exactly when
the source handle's block is null (the well-formedness condition WFOp),
every live SharedPtr and WeakPtr satisfies "value pointer null iff control
block null".  Without these provisos the iff fails in both directions:
adopting a null raw pointer yields a null value pointer over a non-null
block (see the counterexample), and aliasing an empty handle with a
non-null pointer — demoAliasFromEmpty, plainly reachable — yields a live
handle with a non-null value pointer over a null control block. -/
theorem ptr_null_iff_detached_wf (w : World) (hr : ReachableWF w) :
    ((∀ h ∈ w.strongs, h.live = true →
      ((h.ptr_null = true) ↔ (h.attached = false))) ∧
    (∀ h ∈ w.weaks, h.live = true →
      ((h.ptr_null = true) ↔ (h.attached = false)))) ∧
    (Reachable demoAliasFromEmpty ∧
      demoAliasFromEmpty.strongs[1]? = some ⟨true, false, false⟩ ∧
      ¬ReachableWF demoAliasFromEmpty) := by
  refine ⟨⟨?_, ?_⟩, ?_, by decide, ?_⟩
  · intro h hm hl
    rw [(ptrInv_reachableWF w hr).strongPtr h hm hl]
    cases ha : h.attached <;> simp
  · intro h hm hl
    rw [(ptrInv_reachableWF w hr).weakPtr h hm hl]
    cases ha : h.attached <;> simp
  · exact Reachable.step demoDefault (Op.aliasCon 0 false)
      (Reachable.step World.initWorld Op.newDefault Reachable.init)
  · intro hwf
    have hp := ptrInv_reachableWF demoAliasFromEmpty hwf
    have := hp.strongPtr ⟨true, false, false⟩ (by decide) rfl
    simp at this

theorem ptr_null_iff_detached_wf_witness :
    ((⟨true, true, false⟩ : StrongHandle).ptr_null = true) ↔
      ((⟨true, true, false⟩ : StrongHandle).attached = false) := by
  have hr : ReachableWF demoAdopt :=
    ReachableWF.step World.initWorld (Op.newFromRaw false) ReachableWF.init rfl
  exact (ptr_null_iff_detached_wf demoAdopt hr).1.1 ⟨true, true, false⟩
    (by decide) rfl
